import Mathlib

/-!
Verification of the parse-and-cache core of the `please` build system
against its specification.

The development shallowly embeds the Go sources `src/cache/dir_cache.go`
and `src/parse/interpreter.go`.  Paths are modelled as lists of path
components (the Go code manipulates slash-separated strings through
`path.Join` / `path.Dir`; on clean component lists the two views agree).
The on-disk state is modelled as an association list from paths to file
data; a directory exists when some file lies underneath it, matching
`core.PathExists`.  Functions from the `core` package that are not part
of the sources (e.g. `RecursiveCopyFile`, `CanSee`) are modelled from the
spec and marked as such.
-/

namespace Please

/-- A filesystem path, as a list of path components. -/
abbrev FPath := List String

/-- Contents of one file: an abstract content identifier plus a Unix mode. -/
structure FileData where
  content : Nat
  mode : Nat
deriving Repr, DecidableEq, Inhabited

/-- A filesystem: an association list from (file) paths to file data.
Earlier entries shadow later ones; directories are implicit. -/
abbrev FileSystem := List (FPath × FileData)

/-- Look up the file stored at exactly path `p`. -/
def fsGet (fs : FileSystem) (p : FPath) : Option FileData :=
  (fs.find? (fun e => e.1 == p)).map (·.2)

/-- All entries lying at or underneath `p`. -/
def entriesUnder (fs : FileSystem) (p : FPath) : FileSystem :=
  fs.filter (fun e => p.isPrefixOf e.1)

/-- Model of `core.PathExists`: `p` exists as a file or as a directory. -/
def pathExistsFS (fs : FileSystem) (p : FPath) : Bool :=
  fs.any (fun e => p.isPrefixOf e.1)

/-- Model of `os.RemoveAll`: delete the file or directory tree at `p`. -/
def fsRemoveAll (fs : FileSystem) (p : FPath) : FileSystem :=
  fs.filter (fun e => !(p.isPrefixOf e.1))

/-- Overwrite the mode of a file. -/
def setMode (m : Nat) (f : FileData) : FileData :=
  { f with mode := m }

/-- Two path regions are separated when neither is a prefix of the other. -/
def sepPath (p q : FPath) : Prop :=
  ¬ p <+: q ∧ ¬ q <+: p

instance (p q : FPath) : Decidable (sepPath p q) := by
  unfold sepPath; infer_instance

/-- Modelled from the spec: `core.RecursiveCopyFile` (not under `src/`)
copies the file or directory tree at `src` to `dst`, giving every copied
file the given mode; it fails when the source does not exist. -/
def RecursiveCopyFile (fs : FileSystem) (src dst : FPath) (mode : Nat) :
    Option FileSystem :=
  match entriesUnder fs src with
  | [] => none
  | es => some ((es.map (fun e => (dst ++ e.1.drop src.length, setMode mode e.2))) ++ fs)

/-- Target lifecycle states, in increasing order (spec section 4.3). -/
inductive TargetState where
  | inactive
  | active
  | pending
  | building
  | built
  | failed
deriving Repr, DecidableEq

/-- Numeric rank of a state; the Go `core` package compares states as ints. -/
def TargetState.rank : TargetState → Nat
  | .inactive => 0
  | .active => 1
  | .pending => 2
  | .building => 3
  | .built => 4
  | .failed => 5

/-- A build label `//package:name`. -/
structure BuildLabel where
  packageName : String
  name : String
deriving Repr, DecidableEq

/-- The `core.BuildInput` variants produced by `parseSource`. -/
inductive BuildInput where
  | fileLabel (file : String) (packageName : String)
  | targetLabel (label : BuildLabel)
  | buildFileLabel (label : BuildLabel) (file : String)
deriving Repr, DecidableEq

/-- The `Label()` method of `core.BuildInput`: the build label of a
label-input, none for a plain file. -/
def BuildInput.Label : BuildInput → Option BuildLabel
  | .fileLabel _ _ => none
  | .targetLabel label => some label
  | .buildFileLabel label _ => some label

/-- A resolved dependency tree: the `Labels` field of a target together with
the targets its `Dependencies` field points at (pointer structure unfolded
to a tree, which agrees with the Go graph on acyclic dependency graphs). -/
inductive TargetTree where
  | node (labels : List String) (deps : List TargetTree)

/-- Split a list of characters at every occurrence of `sep`; `acc` holds the
(reversed) characters of the current component. -/
def splitCharsAux (sep : Char) : List Char → List Char → List (List Char)
  | [], acc => [acc.reverse]
  | c :: cs, acc =>
    if c = sep then acc.reverse :: splitCharsAux sep cs []
    else splitCharsAux sep cs (c :: acc)

/-- Split a string at every occurrence of `sep` (the semantics of Go's
`strings.Split`). -/
def splitOnChar (sep : Char) (s : String) : List String :=
  (splitCharsAux sep s.data []).map (fun cs => String.mk cs)

/-- Split a slash-separated path string into its components, the empty
string denoting the empty path. -/
def splitPath (s : String) : List String :=
  if s = "" then [] else splitOnChar '/' s

/-- The slice of `core.BuildTarget` needed by the embedded operations.
`dependencies` holds the declared dependency labels; `resolvedDeps` holds the
resolved dependency targets that `GetLabels` walks (as trees).  Every field
defaults to the zero value a fresh Go target carries. -/
structure BuildTarget where
  label : BuildLabel := ⟨"", ""⟩
  command : String := ""
  testCommand : String := ""
  isBinary : Bool := false
  isTest : Bool := false
  needsTransitiveDeps : Bool := false
  outputIsComplete : Bool := false
  containerise : Bool := false
  noTestOutput : Bool := false
  skipCache : Bool := false
  testOnly : Bool := false
  flakiness : Int := 0
  buildTimeout : Int := 0
  testTimeout : Int := 0
  buildingDescription : String := ""
  labels : List String := []
  sources : List BuildInput := []
  namedSources : List (String × List BuildInput) := []
  data : List BuildInput := []
  tools : List BuildLabel := []
  outs : List String := []
  dependencies : List BuildLabel := []
  exportedDependencies : List BuildLabel := []
  licences : List String := []
  visibility : List BuildLabel := []
  resolvedDeps : List TargetTree := []
  state : TargetState := .inactive

/-- `fileMode` from `dir_cache.go`: 0555 for binary targets, 0444 otherwise. -/
def fileMode (target : BuildTarget) : Nat :=
  if target.isBinary then 0o555 else 0o444

/-- Modelled from the spec: `cacheArtifacts` (not under `src/`) yields the
declared artifacts of the target, as paths relative to its out-dir. -/
def cacheArtifacts (target : BuildTarget) : List FPath :=
  target.outs.map splitPath

/-- Modelled from the spec: `core.RepoRoot`-relative out-dir of a target
(`core.BuildTarget.OutDir`, not under `src/`). -/
def OutDir (target : BuildTarget) : FPath :=
  "plz-out" :: "gen" :: splitPath target.label.packageName

/-- Modelled from the spec: the padded base64url encoding of the collapsed
cache key (`core.CollapseHash` plus `base64.URLEncoding`, not under `src/`);
it produces a single path component determined by the key. -/
def encodeKey (key : List Nat) : String :=
  String.mk ('k' :: key.flatMap (fun n => '-' :: List.replicate n 'a'))

/-- The `dirCache` struct of `dir_cache.go`. -/
structure dirCache where
  dir : FPath
deriving Repr, DecidableEq

/-- `getPath` from `dir_cache.go`: `<root>/<package>/<name>/<encoded key>`. -/
def getPath (cache : dirCache) (target : BuildTarget) (key : List Nat) : FPath :=
  cache.dir ++ splitPath target.label.packageName ++ [target.label.name, encodeKey key]

/-- `StoreExtra` from `dir_cache.go`: remove anything already cached for this
artifact, then copy it from the out-dir into the key directory.  Failures
(source missing) are logged and swallowed.  Intermediate directories are
implicit in the filesystem model. -/
def StoreExtra (cache : dirCache) (target : BuildTarget) (key : List Nat)
    (out : FPath) (fs : FileSystem) : FileSystem :=
  match RecursiveCopyFile (fsRemoveAll fs (getPath cache target key ++ out))
      (OutDir target ++ out) (getPath cache target key ++ out) (fileMode target) with
  | some fs2 => fs2
  | none => fsRemoveAll fs (getPath cache target key ++ out)

/-- `Store` from `dir_cache.go`: clear the key directory, then store every
artifact that `cacheArtifacts` yields. -/
def Store (cache : dirCache) (target : BuildTarget) (key : List Nat)
    (fs : FileSystem) : FileSystem :=
  (cacheArtifacts target).foldl
    (fun acc out => StoreExtra cache target key out acc)
    (fsRemoveAll fs (getPath cache target key))

/-- `RetrieveExtra` from `dir_cache.go`: miss when the cached artifact does
not exist; otherwise unlink the existing output and copy the cached tree
back out, with `fileMode target`. -/
def RetrieveExtra (cache : dirCache) (target : BuildTarget) (key : List Nat)
    (out : FPath) (fs : FileSystem) : Bool × FileSystem :=
  if !pathExistsFS fs (getPath cache target key ++ out) then
    (false, fs)
  else
    match RecursiveCopyFile (fsRemoveAll fs (OutDir target ++ out))
        (getPath cache target key ++ out) (OutDir target ++ out) (fileMode target) with
    | some fs2 => (true, fs2)
    | none => (false, fsRemoveAll fs (OutDir target ++ out))

/-- The artifact loop of `Retrieve`: retrieve artifacts in order, stopping
at the first miss. -/
def retrieveAll (cache : dirCache) (target : BuildTarget) (key : List Nat) :
    List FPath → FileSystem → Bool × FileSystem
  | [], fs => (true, fs)
  | out :: rest, fs =>
    let (ok, fs1) := RetrieveExtra cache target key out fs
    if ok then retrieveAll cache target key rest fs1 else (false, fs1)

/-- `Retrieve` from `dir_cache.go`: miss when the key directory does not
exist, otherwise retrieve every artifact. -/
def Retrieve (cache : dirCache) (target : BuildTarget) (key : List Nat)
    (fs : FileSystem) : Bool × FileSystem :=
  if !pathExistsFS fs (getPath cache target key) then
    (false, fs)
  else
    retrieveAll cache target key (cacheArtifacts target) fs

/-- A build target with every field defaulted; concrete examples adjust the
fields they care about. -/
def baseTarget : BuildTarget :=
  {}

/-- A built binary target `//y:z` with a single declared output `z`. -/
def binTargetZ : BuildTarget :=
  { baseTarget with label := ⟨"y", "z"⟩, isBinary := true, outs := ["z"], state := .built }

/-- A built target `//y:z0` with no declared outputs. -/
def emptyOutsTarget : BuildTarget :=
  { baseTarget with label := ⟨"y", "z0"⟩, state := .built }

/-- A directory cache rooted at `.plz-cache`. -/
def cacheRootEx : dirCache :=
  ⟨[".plz-cache"]⟩

/-- An out-dir holding the single artifact `z` of `binTargetZ`. -/
def fsOutZ : FileSystem :=
  [(OutDir binTargetZ ++ ["z"], ⟨7, 0o755⟩)]

/-! ### String helpers (structural, mirroring Go's `strings` package) -/

/-- Does `sub` occur as a contiguous subsequence of the second list?
(the semantics of Go's `strings.Contains` on the byte level). -/
def containsSeq (sub : List Char) : List Char → Bool
  | [] => sub.isEmpty
  | c :: cs => sub.isPrefixOf (c :: cs) || containsSeq sub cs

/-- Go's `strings.Contains`. -/
def strContains (s sub : String) : Bool :=
  containsSeq sub.data s.data

/-- Go's `strings.HasPrefix`. -/
def strHasPrefix (s pre : String) : Bool :=
  pre.data.isPrefixOf s.data

/-- Go's `strings.TrimPrefix`. -/
def strTrimPrefix (s pre : String) : String :=
  if pre.data.isPrefixOf s.data then String.mk (s.data.drop pre.data.length) else s

/-- Trim leading and trailing whitespace (Go's `strings.TrimSpace`). -/
def strTrimSpace (s : String) : String :=
  String.mk (((s.data.dropWhile Char.isWhitespace).reverse.dropWhile Char.isWhitespace).reverse)

/-- Byte-wise lexicographic comparison of character lists (the order Go's
`sort.Strings` sorts by). -/
def lexLeChars : List Char → List Char → Bool
  | [], _ => true
  | _ :: _, [] => false
  | a :: as, b :: bs =>
    if a.toNat < b.toNat then true
    else if b.toNat < a.toNat then false
    else lexLeChars as bs

/-- Go's `<=` on strings. -/
def lexLe (a b : String) : Bool :=
  lexLeChars a.data b.data

/-! ### parseSource (src/parse/interpreter.go:363-385) -/

/-- Modelled from the spec: `core.LooksLikeABuildLabel` (not under `src/`):
a source starting with `//` or `:` is a build-label input. -/
def LooksLikeABuildLabel (s : String) : Bool :=
  strHasPrefix s "//" || strHasPrefix s ":"

/-- Split a character list at the first occurrence of `sep`; the second
component is `none` when `sep` does not occur. -/
def splitFirst (sep : Char) : List Char → List Char × Option (List Char)
  | [] => ([], none)
  | c :: cs =>
    if c = sep then ([], some cs)
    else
      match splitFirst sep cs with
      | (pre, rest) => (c :: pre, rest)

/-- Modelled from the spec: `core.ParseBuildFileLabel` (not under `src/`)
parses `//pkg:name`, `//pkg`, `:name`, each with an optional trailing
`/file` component, resolving relative labels against `packageName`. -/
def ParseBuildFileLabel (src : String) (packageName : String) : BuildLabel × String :=
  match src.data with
  | ':' :: rest =>
    match splitFirst '/' rest with
    | (name, some file) => (⟨packageName, String.mk name⟩, String.mk file)
    | (name, none) => (⟨packageName, String.mk name⟩, "")
  | '/' :: '/' :: body =>
    match splitFirst ':' body with
    | (pkg, some rest) =>
      match splitFirst '/' rest with
      | (name, some file) => (⟨String.mk pkg, String.mk name⟩, String.mk file)
      | (name, none) => (⟨String.mk pkg, String.mk name⟩, "")
    | (pkg, none) =>
      (⟨String.mk pkg, String.mk ((splitCharsAux '/' pkg []).getLastD [])⟩, "")
  | _ => (⟨packageName, src⟩, "")

/-- The failure kinds of `parseSource` (the explicit panics of the source). -/
inductive SourceErr where
  | invalidPath (src : String)
  | absolutePath (src : String)
  | crossPackageFile (src : String) (dir : List String)
deriving Repr, DecidableEq

/-- Outcome of `parseSource`: a classified input, an explicit panic, or the
runtime index-out-of-range panic on `src[0]`. -/
inductive ParseSourceResult where
  | ok (input : BuildInput)
  | fail (e : SourceErr)
  | panicIndexOutOfRange
deriving Repr, DecidableEq

/-- The parent-directory loop of `parseSource`:
`for dir := path.Dir(path.Join(packageName, src)); dir != packageName && dir != "."; dir = path.Dir(dir)`,
on path components (`[]` plays the role of `.`, and of the root package);
returns the first directory found to be a package, scanning from the
deepest. -/
def dirLoop (isPkg : List String → Bool) (pkgComps : List String) (d : List String) :
    Option (List String) :=
  if h : d.isEmpty then none
  else if d = pkgComps then none
  else if isPkg d then some d
  else dirLoop isPkg pkgComps d.dropLast
termination_by d.length
decreasing_by
  have hne : d ≠ [] := by
    intro hd
    rw [hd] at h
    exact h rfl
  have hpos : 0 < d.length := List.length_pos.mpr hne
  simp only [List.length_dropLast]
  omega

/-- `parseSource` from `src/parse/interpreter.go:363-385`.  The filesystem
probe `isPackage` is passed as a predicate on component paths; strings are
split into path components where the Go code uses `path.Join`/`path.Dir`
(the two views agree on clean paths: no empty, `.` or `..` components). -/
def parseSource (isPkg : List String → Bool) (src : String) (packageName : String) :
    ParseSourceResult :=
  if LooksLikeABuildLabel src then
    match ParseBuildFileLabel src packageName with
    | (label, file) =>
      if file ≠ "" then .ok (.buildFileLabel label file)
      else .ok (.targetLabel label)
  else if strContains src "../" then .fail (.invalidPath src)
  else
    match src.data with
    | [] => .panicIndexOutOfRange
    | c :: _ =>
      if c = '/' then .fail (.absolutePath src)
      else if strContains src "/" then
        match dirLoop isPkg (splitPath packageName)
            ((splitPath packageName ++ splitPath src).dropLast) with
        | some dir => .fail (.crossPackageFile src dir)
        | none => .ok (.fileLabel src packageName)
      else .ok (.fileLabel src packageName)

/-! ### core.BuildTarget methods (modelled from the spec) -/

/-- Modelled from the spec: `core.BuildTarget.AddDependency` (not under
`src/`) inserts a label into the dependency set. -/
def BuildTarget.AddDependency (t : BuildTarget) (dep : BuildLabel) : BuildTarget :=
  if dep ∈ t.dependencies then t else { t with dependencies := t.dependencies ++ [dep] }

/-- Modelled from the spec: `core.BuildTarget.AddExportedDependency` (not
under `src/`) inserts a label into the exported-dependency set. -/
def BuildTarget.AddExportedDependency (t : BuildTarget) (dep : BuildLabel) : BuildTarget :=
  if dep ∈ t.exportedDependencies then t
  else { t with exportedDependencies := t.exportedDependencies ++ [dep] }

/-- Modelled from the spec: `core.BuildTarget.AddOutput` (not under `src/`)
appends an output; outputs are ordered by the order of the calls. -/
def BuildTarget.AddOutput (t : BuildTarget) (out : String) : BuildTarget :=
  { t with outs := t.outs ++ [out] }

/-- Modelled from the spec: `core.BuildTarget.AddLabel` (not under `src/`)
inserts into the label set. -/
def BuildTarget.AddLabel (t : BuildTarget) (l : String) : BuildTarget :=
  if l ∈ t.labels then t else { t with labels := t.labels ++ [l] }

/-- Modelled from the spec: `core.BuildTarget.AddLicence` (not under `src/`). -/
def BuildTarget.AddLicence (t : BuildTarget) (licence : String) : BuildTarget :=
  if licence ∈ t.licences then t else { t with licences := t.licences ++ [licence] }

/-- Modelled from the spec: `core.BuildTarget.AddNamedSource` (not under
`src/`) appends to the named-source mapping. -/
def BuildTarget.AddNamedSource (t : BuildTarget) (name : String) (source : BuildInput) :
    BuildTarget :=
  if (t.namedSources.find? (fun e => e.1 == name)).isSome then
    let ns := t.namedSources.map (fun e => if e.1 = name then (e.1, e.2 ++ [source]) else e)
    { t with namedSources := ns }
  else { t with namedSources := t.namedSources ++ [(name, [source])] }

/-- Modelled from the spec: `core.NewBuildTarget` creates a fresh target in
state Inactive with empty collections. -/
def NewBuildTarget (label : BuildLabel) : BuildTarget :=
  { label := label }

/-! ### Source-adding callbacks (src/parse/interpreter.go:353-405) -/

/-- Outcome of the source-adding callbacks, propagating `parseSource`. -/
inductive AddSourceResult where
  | ok (t : BuildTarget)
  | fail (e : SourceErr)
  | panicIndexOutOfRange

/-- `AddSource` from `src/parse/interpreter.go:353-361`: parse the source,
append it to `Sources`, and auto-add a dependency for label inputs. -/
def AddSource (isPkg : List String → Bool) (target : BuildTarget) (cSource : String) :
    AddSourceResult :=
  match parseSource isPkg cSource target.label.packageName with
  | .ok source =>
    let t1 := { target with sources := target.sources ++ [source] }
    .ok (match source.Label with
      | some l => t1.AddDependency l
      | none => t1)
  | .fail e => .fail e
  | .panicIndexOutOfRange => .panicIndexOutOfRange

/-- `AddNamedSource` from `src/parse/interpreter.go:387-395`. -/
def AddNamedSource (isPkg : List String → Bool) (target : BuildTarget)
    (cName cSource : String) : AddSourceResult :=
  match parseSource isPkg cSource target.label.packageName with
  | .ok source =>
    let t1 := target.AddNamedSource cName source
    .ok (match source.Label with
      | some l => t1.AddDependency l
      | none => t1)
  | .fail e => .fail e
  | .panicIndexOutOfRange => .panicIndexOutOfRange

/-- `AddData` from `src/parse/interpreter.go:397-405`. -/
def AddData (isPkg : List String → Bool) (target : BuildTarget) (cData : String) :
    AddSourceResult :=
  match parseSource isPkg cData target.label.packageName with
  | .ok source =>
    let t1 := { target with data := target.data ++ [source] }
    .ok (match source.Label with
      | some l => t1.AddDependency l
      | none => t1)
  | .fail e => .fail e
  | .panicIndexOutOfRange => .panicIndexOutOfRange

/-! ### Package and the post-build callbacks (src/parse/interpreter.go:299-351) -/

/-- The slice of `core.Package` the embedded callbacks need: targets keyed
by name, and the filename-to-owning-target output registry. -/
structure Package where
  name : String
  targets : List (String × BuildTarget)
  outputs : List (String × String)

/-- Look up a target by name (`pkg.Targets[name]`). -/
def Package.findTarget (pkg : Package) (name : String) : Option BuildTarget :=
  (pkg.targets.find? (fun e => e.1 == name)).map (·.2)

/-- Replace the target stored under `name`. -/
def Package.setTarget (pkg : Package) (name : String) (t : BuildTarget) : Package :=
  { pkg with targets := pkg.targets.map (fun e => if e.1 = name then (e.1, t) else e) }

/-- Failure kinds of the post-build mutation callbacks. -/
inductive PostErr where
  | unknownTarget (name : String) (pkg : String)
  | immutableBuiltTarget (label : BuildLabel)
  | duplicateOutput (file : String) (pkg : String)
deriving Repr, DecidableEq

/-- `getTargetPost` from `src/parse/interpreter.go:336-351`: fetch a target
from the current package; panic if missing or already built. -/
def getTargetPost (pkg : Package) (name : String) : Except PostErr BuildTarget :=
  match pkg.findTarget name with
  | none => .error (.unknownTarget name pkg.name)
  | some target =>
    if TargetState.rank .built ≤ target.state.rank then
      .error (.immutableBuiltTarget target.label)
    else .ok target

/-- Modelled from the spec: `core.Package.RegisterOutput` (not under `src/`)
fails when another target of the package already claims the file. -/
def Package.RegisterOutput (pkg : Package) (fileName : String) (target : BuildTarget) :
    Except PostErr Package :=
  match pkg.outputs.find? (fun e => e.1 == fileName) with
  | some e =>
    if e.2 = target.label.name then .ok pkg
    else .error (.duplicateOutput fileName pkg.name)
  | none => .ok { pkg with outputs := pkg.outputs ++ [(fileName, target.label.name)] }

/-- `AddDependency` (post-build callback) from
`src/parse/interpreter.go:299-308`.  The mirroring of the edge into the
global `core.State.Graph` lies outside the modelled state. -/
def AddDependencyPost (pkg : Package) (cTarget : String) (cDep : String) (exported : Bool) :
    Except PostErr Package :=
  match getTargetPost pkg cTarget with
  | .error e => .error e
  | .ok target =>
    let dep := (ParseBuildFileLabel cDep target.label.packageName).1
    let t1 := target.AddDependency dep
    let t2 := if exported then t1.AddExportedDependency dep else t1
    .ok (pkg.setTarget cTarget t2)

/-- `AddOutputPost` from `src/parse/interpreter.go:310-317`. -/
def AddOutputPost (pkg : Package) (cTarget : String) (cOut : String) :
    Except PostErr Package :=
  match getTargetPost pkg cTarget with
  | .error e => .error e
  | .ok target =>
    match pkg.RegisterOutput cOut target with
    | .error e => .error e
    | .ok pkg1 => .ok (pkg1.setTarget cTarget (target.AddOutput cOut))

/-- `AddLicencePost` from `src/parse/interpreter.go:319-323`. -/
def AddLicencePost (pkg : Package) (cTarget : String) (cLicence : String) :
    Except PostErr Package :=
  match getTargetPost pkg cTarget with
  | .error e => .error e
  | .ok target => .ok (pkg.setTarget cTarget (target.AddLicence cLicence))

/-- `SetCommand` from `src/parse/interpreter.go:325-334`. -/
def SetCommand (pkg : Package) (cTarget : String) (cCommand : String) :
    Except PostErr Package :=
  match getTargetPost pkg cTarget with
  | .error e => .error e
  | .ok target => .ok (pkg.setTarget cTarget { target with command := cCommand })

/-! ### addTarget (src/parse/interpreter.go:236-281) -/

/-- Failure kinds of `addTarget` (its panics). -/
inductive AddTargetErr where
  | duplicateTarget (pkg : String) (name : String)
  | testCommandNotTest (label : BuildLabel)
  | testNoCommand (label : BuildLabel)
deriving Repr, DecidableEq

/-- The target construction prefix of `addTarget`
(src/parse/interpreter.go:242-265): set the flags, add the automatic
`container` and `bin` labels, set the description and the commands. -/
def newTargetFor (pkg : Package) (name cmd testCmd : String)
    (binary test needsTransitiveDeps outputIsComplete containerise noTestOutput
      skipCache testOnly : Bool)
    (flakiness buildTimeout testTimeout : Int) (buildingDescription : String) :
    BuildTarget :=
  let target := { NewBuildTarget ⟨pkg.name, name⟩ with
    isBinary := binary, isTest := test, needsTransitiveDeps := needsTransitiveDeps,
    outputIsComplete := outputIsComplete, containerise := containerise,
    noTestOutput := noTestOutput, skipCache := skipCache, testOnly := testOnly,
    flakiness := flakiness, buildTimeout := buildTimeout, testTimeout := testTimeout }
  let target := if containerise then target.AddLabel "container" else target
  let target := if buildingDescription ≠ "" then
    { target with buildingDescription := buildingDescription } else target
  let target := if binary then target.AddLabel "bin" else target
  { target with command := cmd, testCommand := testCmd }

/-- `addTarget` from `src/parse/interpreter.go:236-281`: build the target,
validate, and register it in the package.  The direct insertion into the
global graph during post-build functions lies outside the modelled state. -/
def addTarget (pkg : Package) (name cmd testCmd : String)
    (binary test needsTransitiveDeps outputIsComplete containerise noTestOutput
      skipCache testOnly : Bool)
    (flakiness buildTimeout testTimeout : Int) (buildingDescription : String) :
    Except AddTargetErr Package :=
  let target := newTargetFor pkg name cmd testCmd binary test needsTransitiveDeps
    outputIsComplete containerise noTestOutput skipCache testOnly flakiness
    buildTimeout testTimeout buildingDescription
  if (pkg.findTarget name).isSome then .error (.duplicateTarget pkg.name name)
  else if target.testCommand ≠ "" ∧ target.isTest = false then
    .error (.testCommandNotTest target.label)
  else if target.isTest = true ∧ target.testCommand = "" then
    .error (.testNoCommand target.label)
  else .ok { pkg with targets := pkg.targets ++ [(name, target)] }

/-! ### Dependency-adding callbacks (src/parse/interpreter.go:413-426) -/

/-- One invocation of a dependency-adding callback: `AddDep`,
`AddExportedDep` (src/parse/interpreter.go:413-426), or the post-build
`AddDependency` body (src/parse/interpreter.go:299-308) applied to a target. -/
inductive DepOp where
  | addDep (cDep : String)
  | addExportedDep (cDep : String)
  | addDependencyCB (cDep : String) (exported : Bool)

/-- Apply one dependency-adding callback to a target, as the source does. -/
def applyDepOp (t : BuildTarget) : DepOp → BuildTarget
  | .addDep d => t.AddDependency (ParseBuildFileLabel d t.label.packageName).1
  | .addExportedDep d =>
    let dep := (ParseBuildFileLabel d t.label.packageName).1
    (t.AddDependency dep).AddExportedDependency dep
  | .addDependencyCB d exported =>
    let dep := (ParseBuildFileLabel d t.label.packageName).1
    let t1 := t.AddDependency dep
    if exported then t1.AddExportedDependency dep else t1

/-- Apply a sequence of dependency-adding callbacks. -/
def applyDepOps (t : BuildTarget) (ops : List DepOp) : BuildTarget :=
  ops.foldl applyDepOp t

/-! ### GetSubincludeFile (src/parse/interpreter.go:508-530) -/

/-- The slice of the global `core.State.Graph`: which packages have been
parsed, and the targets registered so far. -/
structure BuildGraph where
  packages : List String
  targets : List (BuildLabel × BuildTarget)

/-- `Graph.Target`: look up a target by label. -/
def BuildGraph.Target (g : BuildGraph) (label : BuildLabel) : Option BuildTarget :=
  (g.targets.find? (fun e => decide (e.1 = label))).map (·.2)

/-- `Graph.Package(name) != nil`: has the package been parsed? -/
def BuildGraph.PackageParsed (g : BuildGraph) (name : String) : Bool :=
  g.packages.any (fun n => n = name)

/-- Outcome of `GetSubincludeFile`: the DEFER sentinel, an on-disk path, or
one of its panics. -/
inductive SubincludeResult where
  | deferSentinel
  | path (p : FPath)
  | panicUnsubincludable (label : BuildLabel)
  | panicVisibility (label : BuildLabel)
  | panicMultipleOutputs (label : BuildLabel)
deriving Repr, DecidableEq

/-- `GetSubincludeFile` from `src/parse/interpreter.go:508-530`.  The label
is taken already parsed (`core.ParseBuildLabel` is not under `src/`); the
visibility check `core.NewBuildTarget(pkgLabel).CanSee(target)` is abstracted
into the `canSee` predicate applied to the caller label `//pkg:all`; the
deferral recorded by `deferParse` (not under `src/`; per the spec it records
`(label, current package)`) is returned in the second component. -/
def GetSubincludeFile (canSee : BuildLabel → BuildTarget → Bool) (g : BuildGraph)
    (pkgName : String) (label : BuildLabel) :
    SubincludeResult × Option (BuildLabel × String) :=
  match g.Target label with
  | none =>
    if g.PackageParsed label.packageName = false then (.deferSentinel, some (label, pkgName))
    else (.panicUnsubincludable label, none)
  | some target =>
    if canSee ⟨pkgName, "all"⟩ target = false then (.panicVisibility label, none)
    else if target.outs.length ≠ 1 then (.panicMultipleOutputs label, none)
    else if target.state.rank < TargetState.rank .built then
      (.deferSentinel, some (label, pkgName))
    else (.path (OutDir target ++ splitPath (target.outs.headD "")), none)

/-! ### GetLabels (src/parse/interpreter.go:685-713) -/

mutual

/-- The recursive label collector of `GetLabels`: labels with the given
prefix, prefix stripped and whitespace trimmed, from the target and its
transitive dependencies. -/
def collectLabels (pre : String) : TargetTree → List String
  | .node labels deps =>
    labels.filterMap
      (fun l => if strHasPrefix l pre then some (strTrimSpace (strTrimPrefix l pre)) else none)
      ++ collectLabelsList pre deps

/-- `collectLabels` over a dependency list. -/
def collectLabelsList (pre : String) : List TargetTree → List String
  | [] => []
  | t :: ts => collectLabels pre t ++ collectLabelsList pre ts

end

mutual

/-- Claim-side variant of `collectLabels`, following the spec words only:
the prefix is stripped but no whitespace is trimmed. -/
def collectLabelsPlain (pre : String) : TargetTree → List String
  | .node labels deps =>
    labels.filterMap
      (fun l => if strHasPrefix l pre then some (strTrimPrefix l pre) else none)
      ++ collectLabelsPlainList pre deps

/-- `collectLabelsPlain` over a dependency list. -/
def collectLabelsPlainList (pre : String) : List TargetTree → List String
  | [] => []
  | t :: ts => collectLabelsPlain pre t ++ collectLabelsPlainList pre ts

end

mutual

/-- All labels of a tree and its transitive dependencies. -/
def treeLabels : TargetTree → List String
  | .node labels deps => labels ++ treeLabelsList deps

/-- `treeLabels` over a dependency list. -/
def treeLabelsList : List TargetTree → List String
  | [] => []
  | t :: ts => treeLabels t ++ treeLabelsList ts

end

/-- Deduplicate a list (keeping the last occurrence of each element),
modelling collection into a Go map. -/
def dedupKeep : List String → List String
  | [] => []
  | x :: xs => if x ∈ xs then dedupKeep xs else x :: dedupKeep xs

/-- Sort strings as Go's `sort.Strings` does (byte-wise lexicographic). -/
def sortStrings (l : List String) : List String :=
  l.insertionSort (fun a b => lexLe a b = true)

/-- Failure kinds of `GetLabels`: the `getTargetPost` panics, or the
`log.Fatalf` on a target that is not currently building. -/
inductive GetLabelsErr where
  | post (e : PostErr)
  | calledOutsideBuilding (label : BuildLabel)
deriving Repr, DecidableEq

/-- `GetLabels` from `src/parse/interpreter.go:685-713`: fetch the target
via `getTargetPost`, insist it is in state Building, then return the sorted
deduplicated collected label suffixes. -/
def GetLabels (pkg : Package) (cTarget : String) (pre : String) :
    Except GetLabelsErr (List String) :=
  match getTargetPost pkg cTarget with
  | .error e => .error (.post e)
  | .ok target =>
    if target.state ≠ .building then .error (.calledOutsideBuilding target.label)
    else .ok (sortStrings (dedupKeep (collectLabels pre (.node target.labels target.resolvedDeps))))

/-! ### Glob (src/parse/interpreter.go:578-659) -/

/-- A filesystem tree: named files and directories. -/
inductive FSTree where
  | file (name : String)
  | dir (name : String) (children : List FSTree)

/-- The name of a tree node. -/
def FSTree.nodeName : FSTree → String
  | .file n => n
  | .dir n _ => n

/-- `isPackage` (src/parse/interpreter.go:665-683) on a directory given by
its children: does it contain a file named like one of the configured
build-file names?  (The process-wide memoization is pure caching.) -/
def treeIsPackage (bfns : List String) (children : List FSTree) : Bool :=
  children.any (fun c => match c with
    | .file n => bfns.any (fun b => b = n)
    | .dir _ _ => false)

mutual

/-- The `filepath.Walk` of `glob` (src/parse/interpreter.go:648-657) on one
node: collect files whose full path matches `m`, never descending into a
directory that is itself a package. -/
def walkNode (bfns : List String) (m : List String → Bool) (pfx : List String) :
    FSTree → List (List String)
  | .file n => if m (pfx ++ [n]) then [pfx ++ [n]] else []
  | .dir n children =>
    if treeIsPackage bfns children then []
    else walkList bfns m (pfx ++ [n]) children

/-- `walkNode` over a directory's children. -/
def walkList (bfns : List String) (m : List String → Bool) (pfx : List String) :
    List FSTree → List (List String)
  | [] => []
  | t :: ts => walkNode bfns m pfx t ++ walkList bfns m pfx ts

end

/-- Go's `filepath.Match` on a single path component, for the `*` and `?`
metacharacters (character classes are not used by the embedded callers).
The fuel argument only drives structural recursion; every step shortens
pattern plus string, so `goMatch` supplies enough of it. -/
def goMatchAux : Nat → List Char → List Char → Bool
  | 0, _, _ => false
  | fuel + 1, pat, s =>
    match pat, s with
    | [], [] => true
    | [], _ :: _ => false
    | '*' :: ps, [] => goMatchAux fuel ps []
    | '*' :: ps, c :: s2 => goMatchAux fuel ps (c :: s2) || goMatchAux fuel ('*' :: ps) s2
    | '?' :: ps, _ :: s2 => goMatchAux fuel ps s2
    | '?' :: _, [] => false
    | p :: ps, c :: s2 => (p = c) && goMatchAux fuel ps s2
    | _ :: _, [] => false

/-- Go's `filepath.Match` on component strings. -/
def goMatch (pattern name : String) : Bool :=
  goMatchAux (pattern.data.length + name.data.length + 1) pattern.data name.data

/-- Go's `filepath.Glob` over the tree model: match the pattern components
level by level from the repository root, returning existing matching paths. -/
def globNoStarStar (pats : List String) (pfx : List String) (ts : List FSTree) :
    List (List String) :=
  match pats with
  | [] => []
  | [p] => ts.filterMap (fun t =>
      if goMatch p t.nodeName then some (pfx ++ [t.nodeName]) else none)
  | p :: rest => ts.flatMap (fun t =>
      match t with
      | .dir n cs => if goMatch p n then globNoStarStar rest (pfx ++ [n]) cs else []
      | .file _ => [])

/-- The children of the directory at `path`, when it exists. -/
def dirAt (ts : List FSTree) : List String → Option (List FSTree)
  | [] => some ts
  | n :: rest =>
    match ts.find? (fun t => match t with | .dir m _ => m == n | .file _ => false) with
    | some (.dir _ cs) => dirAt cs rest
    | _ => none

/-- `glob` from `src/parse/interpreter.go:631-659` over the tree model.
Patterns containing `**` are compiled to a regex and matched during a
pruned walk; `compile` abstracts Go's `regexp` engine (the translated
pattern applied to the slash-joined full name).  Other patterns go through
`filepath.Glob`, which does no pruning.  A missing root directory makes the
walk return an error, surfaced as no matches. -/
def glob (bfns : List String) (repo : List FSTree) (compile : String → List String → Bool)
    (rootPath : List String) (pattern : String) : List (List String) :=
  if strContains pattern "**" then
    match dirAt repo rootPath with
    | some children => walkList bfns (compile pattern) rootPath children
    | none => []
  else
    globNoStarStar (rootPath ++ splitPath pattern) [] repo

/-- `shouldExcludeMatch` (src/parse/interpreter.go:618-629):
`filepath.Match(path.Join(packageName, exclude), match)`, component-wise. -/
def filepathMatch : List String → List String → Bool
  | [], [] => true
  | p :: ps, n :: ns => goMatch p n && filepathMatch ps ns
  | _, _ => false

/-- `shouldExcludeMatch` over the exclude patterns. -/
def shouldExcludeMatch (m : List String) (packageName : List String)
    (excludes : List String) : Bool :=
  excludes.any (fun excl => filepathMatch (packageName ++ splitPath excl) m)

/-- `Glob` (the callback) from `src/parse/interpreter.go:578-604`: expand
every include pattern, drop hidden files unless asked, apply the exclude
patterns, and strip the package prefix. -/
def Glob (bfns : List String) (repo : List FSTree) (compile : String → List String → Bool)
    (packageName : List String) (includes excludes : List String)
    (includeHidden : Bool) : List (List String) :=
  includes.flatMap (fun pattern =>
    (glob bfns repo compile packageName pattern).filterMap (fun filename =>
      let file := filename.getLastD ""
      if !includeHidden ∧ (strHasPrefix file "." ∨
          (strHasPrefix file "#" ∧ file.data.getLast? = some '#')) then none
      else if shouldExcludeMatch filename packageName excludes then none
      else if packageName.isPrefixOf filename then
        some (filename.drop packageName.length)
      else some filename))

/-- Does the file at relative path `p` lie inside a descendant directory
that is itself a package? -/
def inSubPackage (bfns : List String) (ts : List FSTree) : List String → Bool
  | [] => false
  | [_] => false
  | d :: rest => ts.any (fun t => match t with
      | .dir n cs => n == d && (treeIsPackage bfns cs || inSubPackage bfns cs rest)
      | .file _ => false)

mutual

/-- Sibling names are distinct, recursively (well-formedness of a real
directory tree). -/
def uniqNode : FSTree → Bool
  | .file _ => true
  | .dir _ cs => uniqList cs

/-- `uniqNode` over a sibling list. -/
def uniqList : List FSTree → Bool
  | [] => true
  | t :: ts => !(ts.map FSTree.nodeName).any (fun n => n = t.nodeName) &&
      uniqNode t && uniqList ts

end

/-! ### Concrete example data -/

/-- An unbuilt subinclude target `//a:rules` with two outputs. -/
def subincludeTargetEx : BuildTarget :=
  { label := ⟨"a", "rules"⟩, outs := ["x", "y"], state := .inactive }

/-- A graph in which package `a` is parsed and holds `subincludeTargetEx`. -/
def subincludeGraphEx : BuildGraph :=
  ⟨["a"], [(⟨"a", "rules"⟩, subincludeTargetEx)]⟩

/-- An already-built target `//x:done`. -/
def builtTargetEx : BuildTarget :=
  { label := ⟨"x", "done"⟩, state := .built }

/-- An active (not yet built) target `//x:gen`. -/
def activeTargetEx : BuildTarget :=
  { label := ⟨"x", "gen"⟩, state := .active }

/-- A package holding one active and one built target. -/
def pkgPostEx : Package :=
  ⟨"x", [("gen", activeTargetEx), ("done", builtTargetEx)], []⟩

/-- A building target carrying a label with inner whitespace. -/
def labelsTargetEx : BuildTarget :=
  { label := ⟨"x", "lib"⟩, state := .building, labels := ["p: a"] }

/-- A package holding `labelsTargetEx`. -/
def pkgLabelsEx : Package :=
  ⟨"x", [("lib", labelsTargetEx)], []⟩

/-- The contents of package `p`: `main.go` and a sub-package `p/sub`
containing a build file and `inner.go`. -/
def pChildrenEx : List FSTree :=
  [.file "main.go", .dir "sub" [.file "BUILD", .file "inner.go"]]

/-- A repository tree holding package `p`. -/
def repoEx : List FSTree :=
  [.dir "p" pChildrenEx]

/-! ### Generic list helpers -/

theorem find_filter_of_imp {α : Type} {P Q : α → Bool} (h : ∀ a, P a = true → Q a = true)
    (l : List α) : (l.filter Q).find? P = l.find? P := by
  induction l with
  | nil => rfl
  | cons a l ih =>
    by_cases hP : P a = true
    · have hQ : Q a = true := h a hP
      simp [List.filter_cons, hQ, hP]
    · by_cases hQ : Q a = true <;>
        simp [List.filter_cons, hQ, List.find?_cons, hP, ih]

theorem filter_filter_of_imp {α : Type} {P Q : α → Bool} (h : ∀ a, P a = true → Q a = true)
    (l : List α) : (l.filter Q).filter P = l.filter P := by
  rw [List.filter_filter]
  apply List.filter_congr
  intro a _
  by_cases hP : P a = true
  · simp [hP, h a hP]
  · simp [hP]

theorem find?_congr_mem {α : Type} {P Q : α → Bool} {l : List α} (h : ∀ a ∈ l, P a = Q a) :
    l.find? P = l.find? Q := by
  induction l with
  | nil => rfl
  | cons a l ih =>
    have ha := h a (by simp)
    by_cases hP : P a = true <;>
      simp [List.find?_cons, hP, ha ▸ hP, ih fun b hb => h b (by simp [hb])]

/-! ### Path separation -/

theorem sepPath_symm {p q : FPath} (h : sepPath p q) : sepPath q p :=
  ⟨h.2, h.1⟩

theorem sepPath_append {p q : FPath} (h : sepPath p q) (x y : FPath) :
    sepPath (p ++ x) (q ++ y) := by
  constructor
  · intro hpq
    have h1 : p <+: q ++ y := List.IsPrefix.trans (List.prefix_append p x) hpq
    rcases List.prefix_or_prefix_of_prefix h1 (List.prefix_append q y) with h2 | h2
    · exact h.1 h2
    · exact h.2 h2
  · intro hqp
    have h1 : q <+: p ++ x := List.IsPrefix.trans (List.prefix_append q y) hqp
    rcases List.prefix_or_prefix_of_prefix h1 (List.prefix_append p x) with h2 | h2
    · exact h.2 h2
    · exact h.1 h2

theorem sepPath_append_left {p q : FPath} (h : sepPath p q) (x : FPath) :
    sepPath (p ++ x) q := by
  have := sepPath_append h x ([] : FPath)
  simpa using this

theorem sepPath_append_right {p q : FPath} (h : sepPath p q) (y : FPath) :
    sepPath p (q ++ y) := by
  have := sepPath_append h ([] : FPath) y
  simpa using this

/-! ### Filesystem primitive lemmas -/

theorem fsGet_nil (q : FPath) : fsGet [] q = none := rfl

theorem fsGet_cons (e : FPath × FileData) (fs : FileSystem) (q : FPath) :
    fsGet (e :: fs) q = if e.1 = q then some e.2 else fsGet fs q := by
  by_cases h : e.1 = q <;> simp [fsGet, List.find?_cons, h]

theorem fsGet_append (l1 l2 : FileSystem) (q : FPath) :
    fsGet (l1 ++ l2) q = (fsGet l1 q).or (fsGet l2 q) := by
  simp only [fsGet, List.find?_append]
  cases l1.find? (fun e => e.1 == q) <;> simp

theorem fsGet_fsRemoveAll (fs : FileSystem) (p q : FPath) :
    fsGet (fsRemoveAll fs p) q = if p <+: q then none else fsGet fs q := by
  induction fs with
  | nil => simp [fsGet, fsRemoveAll]
  | cons e fs ih =>
    by_cases hpe : p <+: e.1
    · have hb : p.isPrefixOf e.1 = true := List.isPrefixOf_iff_prefix.mpr hpe
      rw [fsRemoveAll, List.filter_cons, if_neg (by simp [hb])]
      rw [fsRemoveAll] at ih
      rw [ih, fsGet_cons]
      by_cases hq : p <+: q
      · simp [hq]
      · have : e.1 ≠ q := fun h => hq (h ▸ hpe)
        simp [hq, this]
    · have hb : p.isPrefixOf e.1 = false := by
        rw [Bool.eq_false_iff]
        exact fun h => hpe (List.isPrefixOf_iff_prefix.mp h)
      rw [fsRemoveAll, List.filter_cons, if_pos (by simp [hb])]
      rw [fsRemoveAll] at ih
      rw [fsGet_cons, fsGet_cons, ih]
      by_cases heq : e.1 = q
      · have : ¬ p <+: q := fun h => hpe (heq ▸ h)
        simp [heq, this]
      · simp [heq]

theorem entriesUnder_eq_nil_iff (fs : FileSystem) (p : FPath) :
    entriesUnder fs p = [] ↔ ∀ e ∈ fs, ¬ p <+: e.1 := by
  simp [entriesUnder, List.filter_eq_nil_iff, List.isPrefixOf_iff_prefix]

theorem pathExistsFS_iff (fs : FileSystem) (p : FPath) :
    pathExistsFS fs p = true ↔ ∃ e ∈ fs, p <+: e.1 := by
  simp [pathExistsFS, List.any_eq_true, List.isPrefixOf_iff_prefix]

theorem pathExistsFS_iff_entriesUnder (fs : FileSystem) (p : FPath) :
    pathExistsFS fs p = true ↔ entriesUnder fs p ≠ [] := by
  rw [pathExistsFS_iff, Ne, entriesUnder_eq_nil_iff]
  push_neg
  rfl

theorem fsGet_eq_none_of_entriesUnder_eq_nil {fs : FileSystem} {p : FPath}
    (h : entriesUnder fs p = []) (r : FPath) : fsGet fs (p ++ r) = none := by
  cases hfind : fs.find? (fun e => e.1 == p ++ r) with
  | none => simp [fsGet, hfind]
  | some e =>
    have hmem : e ∈ fs := List.mem_of_find?_eq_some hfind
    have heq : e.1 = p ++ r := by simpa using List.find?_some hfind
    have := (entriesUnder_eq_nil_iff fs p).mp h e hmem
    exact absurd (heq ▸ List.prefix_append p r) this

theorem entriesUnder_fsRemoveAll_self (fs : FileSystem) (p : FPath) :
    entriesUnder (fsRemoveAll fs p) p = [] := by
  rw [entriesUnder_eq_nil_iff]
  intro e he
  rw [fsRemoveAll, List.mem_filter] at he
  intro hp
  have h2 := he.2
  rw [Bool.not_eq_true', Bool.eq_false_iff] at h2
  exact h2 (List.isPrefixOf_iff_prefix.mpr hp)

theorem entriesUnder_fsRemoveAll_sep (fs : FileSystem) {p q : FPath} (hsep : sepPath p q) :
    entriesUnder (fsRemoveAll fs q) p = entriesUnder fs p := by
  apply filter_filter_of_imp
  intro e he
  simp only [List.isPrefixOf_iff_prefix] at he ⊢
  simp only [Bool.not_eq_true']
  by_contra hq
  simp only [Bool.not_eq_false, List.isPrefixOf_iff_prefix] at hq
  rcases List.prefix_or_prefix_of_prefix he hq with h2 | h2
  · exact hsep.1 h2
  · exact hsep.2 h2

/-! ### RecursiveCopyFile lemmas -/

theorem fsGet_eq_of_entriesUnder_eq {l1 l2 : FileSystem} {u : FPath}
    (h : entriesUnder l1 u = entriesUnder l2 u) (r : FPath) :
    fsGet l1 (u ++ r) = fsGet l2 (u ++ r) := by
  have himp : ∀ e : FPath × FileData, (e.1 == u ++ r) = true → u.isPrefixOf e.1 = true := by
    intro e he
    rw [beq_iff_eq] at he
    exact List.isPrefixOf_iff_prefix.mpr (he ▸ List.prefix_append u r)
  have h1 : fsGet (entriesUnder l1 u) (u ++ r) = fsGet l1 (u ++ r) := by
    unfold fsGet entriesUnder
    rw [find_filter_of_imp himp]
  have h2 : fsGet (entriesUnder l2 u) (u ++ r) = fsGet l2 (u ++ r) := by
    unfold fsGet entriesUnder
    rw [find_filter_of_imp himp]
  rw [← h1, ← h2, h]

theorem RecursiveCopyFile_eq_none_iff (fs : FileSystem) (src dst : FPath) (mode : Nat) :
    RecursiveCopyFile fs src dst mode = none ↔ entriesUnder fs src = [] := by
  unfold RecursiveCopyFile
  split
  next heq => simp [heq]
  next es heq => exact iff_of_false (by simp) heq

theorem RecursiveCopyFile_eq_some {fs fs2 : FileSystem} {src dst : FPath} {mode : Nat}
    (h : RecursiveCopyFile fs src dst mode = some fs2) :
    fs2 = (entriesUnder fs src).map
      (fun e => (dst ++ e.1.drop src.length, setMode mode e.2)) ++ fs := by
  unfold RecursiveCopyFile at h
  split at h
  next heq => exact absurd h (by simp)
  next es heq => exact (Option.some_inj.mp h).symm

theorem fsGet_copyEntries (fs : FileSystem) (src dst : FPath) (mode : Nat) (r : FPath) :
    fsGet ((entriesUnder fs src).map
      (fun e => (dst ++ e.1.drop src.length, setMode mode e.2))) (dst ++ r) =
    (fsGet fs (src ++ r)).map (setMode mode) := by
  unfold fsGet
  rw [List.find?_map]
  have hcong : ∀ e ∈ entriesUnder fs src,
      (((fun x : FPath × FileData => x.1 == dst ++ r) ∘
        (fun e : FPath × FileData => (dst ++ e.1.drop src.length, setMode mode e.2))) e) =
      ((fun x : FPath × FileData => x.1 == src ++ r) e) := by
    intro e he
    rw [entriesUnder, List.mem_filter] at he
    obtain ⟨t, ht⟩ := List.isPrefixOf_iff_prefix.mp he.2
    simp only [Function.comp_apply, ← ht, List.drop_left]
    by_cases ht2 : t = r
    · simp [ht2]
    · have h1 : dst ++ t ≠ dst ++ r := fun h => ht2 (List.append_cancel_left h)
      have h2 : src ++ t ≠ src ++ r := fun h => ht2 (List.append_cancel_left h)
      simp [h1, h2]
  rw [find?_congr_mem hcong]
  have himp : ∀ e : FPath × FileData, (e.1 == src ++ r) = true → src.isPrefixOf e.1 = true := by
    intro e he
    rw [beq_iff_eq] at he
    exact List.isPrefixOf_iff_prefix.mpr (he ▸ List.prefix_append src r)
  rw [entriesUnder, find_filter_of_imp himp, Option.map_map, Option.map_map]
  rfl

theorem fsGet_RecursiveCopyFile_inside {fs fs2 : FileSystem} {src dst : FPath} {mode : Nat}
    (h : RecursiveCopyFile fs src dst mode = some fs2)
    (hclear : entriesUnder fs dst = []) (r : FPath) :
    fsGet fs2 (dst ++ r) = (fsGet fs (src ++ r)).map (setMode mode) := by
  rw [RecursiveCopyFile_eq_some h, fsGet_append, fsGet_copyEntries,
    fsGet_eq_none_of_entriesUnder_eq_nil hclear r]
  cases fsGet fs (src ++ r) <;> rfl

theorem fsGet_RecursiveCopyFile_outside {fs fs2 : FileSystem} {src dst : FPath} {mode : Nat}
    (h : RecursiveCopyFile fs src dst mode = some fs2) {p : FPath} (hp : ¬ dst <+: p) :
    fsGet fs2 p = fsGet fs p := by
  rw [RecursiveCopyFile_eq_some h, fsGet_append]
  have hnone : fsGet ((entriesUnder fs src).map
      (fun e => (dst ++ e.1.drop src.length, setMode mode e.2))) p = none := by
    have hfind : ((entriesUnder fs src).map
        (fun e => (dst ++ e.1.drop src.length, setMode mode e.2))).find?
          (fun e => e.1 == p) = none := by
      rw [List.find?_eq_none]
      intro x hx
      rw [List.mem_map] at hx
      obtain ⟨e, -, he⟩ := hx
      rw [← he]
      simp only [beq_iff_eq]
      intro hcontra
      exact hp (hcontra ▸ List.prefix_append dst _)
    unfold fsGet
    rw [hfind]
    rfl
  rw [hnone]
  rfl

theorem entriesUnder_RecursiveCopyFile_sep {fs fs2 : FileSystem} {src dst : FPath} {mode : Nat}
    (h : RecursiveCopyFile fs src dst mode = some fs2) {p : FPath} (hsep : sepPath p dst) :
    entriesUnder fs2 p = entriesUnder fs p := by
  rw [RecursiveCopyFile_eq_some h, entriesUnder, List.filter_append]
  have hnil : ((entriesUnder fs src).map
      (fun e => (dst ++ e.1.drop src.length, setMode mode e.2))).filter
        (fun e => p.isPrefixOf e.1) = [] := by
    rw [List.filter_eq_nil_iff]
    intro x hx
    rw [List.mem_map] at hx
    obtain ⟨e, -, he⟩ := hx
    rw [← he]
    simp only [List.isPrefixOf_iff_prefix]
    intro hcontra
    rcases List.prefix_or_prefix_of_prefix hcontra (List.prefix_append dst _) with h2 | h2
    · exact hsep.1 h2
    · exact hsep.2 h2
  rw [hnil]
  rfl

theorem fsGet_RecursiveCopyFile_mode {fs fs2 : FileSystem} {src dst : FPath} {mode : Nat}
    (h : RecursiveCopyFile fs src dst mode = some fs2) (p : FPath) (f : FileData)
    (hf : fsGet fs2 p = some f) : fsGet fs p = some f ∨ f.mode = mode := by
  rw [RecursiveCopyFile_eq_some h, fsGet_append] at hf
  cases hmap : fsGet ((entriesUnder fs src).map
      (fun e => (dst ++ e.1.drop src.length, setMode mode e.2))) p with
  | none =>
    rw [hmap] at hf
    exact Or.inl hf
  | some g =>
    rw [hmap] at hf
    have hfg : g = f := by
      rw [Option.or_of_isSome (by simp)] at hf
      exact Option.some_inj.mp hf
    right
    rw [← hfg]
    unfold fsGet at hmap
    rw [List.find?_map] at hmap
    rw [Option.map_map] at hmap
    cases hfind : (entriesUnder fs src).find? _ with
    | none => rw [hfind] at hmap; exact absurd hmap (by simp)
    | some e =>
      rw [hfind] at hmap
      have : ((fun x : FPath × FileData => x.2) ∘
          (fun e : FPath × FileData => (dst ++ e.1.drop src.length, setMode mode e.2))) e = g :=
        Option.some_inj.mp hmap
      rw [← this]
      rfl

/-! ### Store lemmas -/

theorem StoreExtra_fsGet_cache (c : dirCache) (t : BuildTarget) (k : List Nat)
    (out : FPath) (fs : FileSystem) (hsep : sepPath (getPath c t k) (OutDir t)) (q : FPath) :
    fsGet (StoreExtra c t k out fs) (getPath c t k ++ q) =
      if out <+: q then (fsGet fs (OutDir t ++ q)).map (setMode (fileMode t))
      else fsGet fs (getPath c t k ++ q) := by
  unfold StoreExtra
  cases h : RecursiveCopyFile (fsRemoveAll fs (getPath c t k ++ out))
      (OutDir t ++ out) (getPath c t k ++ out) (fileMode t) with
  | some fs2 =>
    by_cases hq : out <+: q
    · obtain ⟨r, hr⟩ := hq
      rw [if_pos ⟨r, hr⟩, ← hr, ← List.append_assoc, ← List.append_assoc]
      rw [fsGet_RecursiveCopyFile_inside h (entriesUnder_fsRemoveAll_self fs _) r]
      rw [fsGet_fsRemoveAll]
      have hnp2 : ¬ (getPath c t k ++ out) <+: ((OutDir t ++ out) ++ r) := by
        rw [List.append_assoc]
        exact (sepPath_append hsep out (out ++ r)).1
      rw [if_neg hnp2]
    · rw [if_neg hq]
      have hnp : ¬ (getPath c t k ++ out) <+: (getPath c t k ++ q) := by
        rw [List.prefix_append_right_inj]
        exact hq
      rw [fsGet_RecursiveCopyFile_outside h hnp, fsGet_fsRemoveAll, if_neg hnp]
  | none =>
    have hnil : entriesUnder (fsRemoveAll fs (getPath c t k ++ out)) (OutDir t ++ out) = [] :=
      (RecursiveCopyFile_eq_none_iff _ _ _ _).mp h
    rw [entriesUnder_fsRemoveAll_sep fs (sepPath_append (sepPath_symm hsep) out out)] at hnil
    by_cases hq : out <+: q
    · obtain ⟨r, hr⟩ := hq
      rw [if_pos ⟨r, hr⟩, ← hr, ← List.append_assoc]
      rw [fsGet_fsRemoveAll, if_pos (List.prefix_append _ r)]
      rw [← List.append_assoc]
      rw [fsGet_eq_none_of_entriesUnder_eq_nil hnil r]
      rfl
    · rw [if_neg hq]
      have hnp : ¬ (getPath c t k ++ out) <+: (getPath c t k ++ q) := by
        rw [List.prefix_append_right_inj]
        exact hq
      rw [fsGet_fsRemoveAll, if_neg hnp]

theorem StoreExtra_entriesUnder_sep (c : dirCache) (t : BuildTarget) (k : List Nat)
    (out : FPath) (fs : FileSystem) {p : FPath} (hp : sepPath p (getPath c t k ++ out)) :
    entriesUnder (StoreExtra c t k out fs) p = entriesUnder fs p := by
  unfold StoreExtra
  cases h : RecursiveCopyFile (fsRemoveAll fs (getPath c t k ++ out))
      (OutDir t ++ out) (getPath c t k ++ out) (fileMode t) with
  | some fs2 =>
    rw [entriesUnder_RecursiveCopyFile_sep h hp, entriesUnder_fsRemoveAll_sep fs hp]
  | none =>
    rw [entriesUnder_fsRemoveAll_sep fs hp]

theorem storeFold_spec (c : dirCache) (t : BuildTarget) (k : List Nat) (fs : FileSystem)
    (hsep : sepPath (getPath c t k) (OutDir t)) (arts : List FPath) :
    ∀ (acc : FileSystem) (D : FPath → Bool),
      (∀ p, sepPath p (getPath c t k) → entriesUnder acc p = entriesUnder fs p) →
      (∀ q, fsGet acc (getPath c t k ++ q) =
        if D q then (fsGet fs (OutDir t ++ q)).map (setMode (fileMode t)) else none) →
      (∀ q, fsGet (arts.foldl (fun a out => StoreExtra c t k out a) acc) (getPath c t k ++ q) =
          if (arts.any (fun a => a.isPrefixOf q) || D q)
          then (fsGet fs (OutDir t ++ q)).map (setMode (fileMode t)) else none) ∧
      (∀ p, sepPath p (getPath c t k) →
        entriesUnder (arts.foldl (fun a out => StoreExtra c t k out a) acc) p =
          entriesUnder fs p) := by
  induction arts with
  | nil =>
    intro acc D h1 h2
    exact ⟨by simpa using h2, h1⟩
  | cons a arts ih =>
    intro acc D h1 h2
    have hout : entriesUnder acc (OutDir t) = entriesUnder fs (OutDir t) :=
      h1 (OutDir t) (sepPath_symm hsep)
    have step1 : ∀ p, sepPath p (getPath c t k) →
        entriesUnder (StoreExtra c t k a acc) p = entriesUnder fs p := by
      intro p hp
      rw [StoreExtra_entriesUnder_sep c t k a acc (sepPath_append_right hp a)]
      exact h1 p hp
    have step2 : ∀ q, fsGet (StoreExtra c t k a acc) (getPath c t k ++ q) =
        if (a.isPrefixOf q || D q)
        then (fsGet fs (OutDir t ++ q)).map (setMode (fileMode t)) else none := by
      intro q
      rw [StoreExtra_fsGet_cache c t k a acc hsep q]
      by_cases hq : a <+: q
      · rw [if_pos hq, fsGet_eq_of_entriesUnder_eq hout q,
          if_pos (by rw [List.isPrefixOf_iff_prefix.mpr hq, Bool.true_or])]
      · have hb : a.isPrefixOf q = false := by
          rw [Bool.eq_false_iff]
          exact fun hc => hq (List.isPrefixOf_iff_prefix.mp hc)
        rw [if_neg hq, h2 q, hb, Bool.false_or]
    have hrec := ih (StoreExtra c t k a acc) (fun q => a.isPrefixOf q || D q) step1 step2
    refine ⟨fun q => ?_, hrec.2⟩
    rw [List.foldl_cons, hrec.1 q, List.any_cons]
    simp only [Bool.or_assoc, Bool.or_comm, Bool.or_left_comm]

theorem Store_fsGet_cache (c : dirCache) (t : BuildTarget) (k : List Nat) (fs : FileSystem)
    (hsep : sepPath (getPath c t k) (OutDir t)) (q : FPath) :
    fsGet (Store c t k fs) (getPath c t k ++ q) =
      if (cacheArtifacts t).any (fun a => a.isPrefixOf q)
      then (fsGet fs (OutDir t ++ q)).map (setMode (fileMode t)) else none := by
  have h1 : ∀ p, sepPath p (getPath c t k) →
      entriesUnder (fsRemoveAll fs (getPath c t k)) p = entriesUnder fs p :=
    fun p hp => entriesUnder_fsRemoveAll_sep fs hp
  have h2 : ∀ r, fsGet (fsRemoveAll fs (getPath c t k)) (getPath c t k ++ r) =
      if (fun _ : FPath => false) r
      then (fsGet fs (OutDir t ++ r)).map (setMode (fileMode t)) else none := by
    intro r
    rw [fsGet_fsRemoveAll, if_pos (List.prefix_append _ r)]
    rfl
  have := (storeFold_spec c t k fs hsep (cacheArtifacts t) _ _ h1 h2).1 q
  rw [Store]
  rw [this, Bool.or_false]

theorem Store_entriesUnder_sep (c : dirCache) (t : BuildTarget) (k : List Nat)
    (fs : FileSystem) (hsep : sepPath (getPath c t k) (OutDir t)) {p : FPath}
    (hp : sepPath p (getPath c t k)) :
    entriesUnder (Store c t k fs) p = entriesUnder fs p := by
  have h1 : ∀ p, sepPath p (getPath c t k) →
      entriesUnder (fsRemoveAll fs (getPath c t k)) p = entriesUnder fs p :=
    fun p hp => entriesUnder_fsRemoveAll_sep fs hp
  have h2 : ∀ r, fsGet (fsRemoveAll fs (getPath c t k)) (getPath c t k ++ r) =
      if (fun _ : FPath => false) r
      then (fsGet fs (OutDir t ++ r)).map (setMode (fileMode t)) else none := by
    intro r
    rw [fsGet_fsRemoveAll, if_pos (List.prefix_append _ r)]
    rfl
  exact (storeFold_spec c t k fs hsep (cacheArtifacts t) _ _ h1 h2).2 p hp

/-! ### Retrieve lemmas -/

theorem RetrieveExtra_of_missing {c : dirCache} {t : BuildTarget} {k : List Nat}
    {out : FPath} {fs : FileSystem}
    (h : pathExistsFS fs (getPath c t k ++ out) = false) :
    RetrieveExtra c t k out fs = (false, fs) := by
  unfold RetrieveExtra
  rw [h]
  rfl

theorem RetrieveExtra_of_present (c : dirCache) (t : BuildTarget) (k : List Nat)
    (out : FPath) (fs : FileSystem) (hsep : sepPath (getPath c t k) (OutDir t))
    (h : pathExistsFS fs (getPath c t k ++ out) = true) :
    (RetrieveExtra c t k out fs).1 = true ∧
    (∀ q, fsGet (RetrieveExtra c t k out fs).2 (OutDir t ++ q) =
      if out <+: q then (fsGet fs (getPath c t k ++ q)).map (setMode (fileMode t))
      else fsGet fs (OutDir t ++ q)) ∧
    (∀ p, sepPath p (OutDir t) →
      entriesUnder (RetrieveExtra c t k out fs).2 p = entriesUnder fs p) := by
  have hsepoc : sepPath (getPath c t k ++ out) (OutDir t ++ out) :=
    sepPath_append hsep out out
  have hne : entriesUnder (fsRemoveAll fs (OutDir t ++ out)) (getPath c t k ++ out) ≠ [] := by
    rw [entriesUnder_fsRemoveAll_sep fs hsepoc]
    exact (pathExistsFS_iff_entriesUnder fs _).mp h
  unfold RetrieveExtra
  rw [h]
  cases hc : RecursiveCopyFile (fsRemoveAll fs (OutDir t ++ out))
      (getPath c t k ++ out) (OutDir t ++ out) (fileMode t) with
  | none => exact absurd ((RecursiveCopyFile_eq_none_iff _ _ _ _).mp hc) hne
  | some fs2 =>
    refine ⟨rfl, fun q => ?_, fun p hp => ?_⟩
    · show fsGet fs2 (OutDir t ++ q) = _
      by_cases hq : out <+: q
      · obtain ⟨r, hr⟩ := hq
        rw [if_pos ⟨r, hr⟩, ← hr, ← List.append_assoc]
        rw [fsGet_RecursiveCopyFile_inside hc (entriesUnder_fsRemoveAll_self fs _) r]
        rw [fsGet_fsRemoveAll]
        have hnp2 : ¬ (OutDir t ++ out) <+: ((getPath c t k ++ out) ++ r) := by
          rw [List.append_assoc]
          exact (sepPath_append (sepPath_symm hsep) out (out ++ r)).1
        rw [if_neg hnp2, List.append_assoc]
      · rw [if_neg hq]
        have hnp : ¬ (OutDir t ++ out) <+: (OutDir t ++ q) := by
          rw [List.prefix_append_right_inj]
          exact hq
        rw [fsGet_RecursiveCopyFile_outside hc hnp, fsGet_fsRemoveAll, if_neg hnp]
    · show entriesUnder fs2 p = _
      rw [entriesUnder_RecursiveCopyFile_sep hc (sepPath_append_right hp out),
        entriesUnder_fsRemoveAll_sep fs (sepPath_append_right hp out)]

theorem retrieveAll_ok_iff (c : dirCache) (t : BuildTarget) (k : List Nat) (fs : FileSystem)
    (hsep : sepPath (getPath c t k) (OutDir t)) (arts : List FPath) :
    ∀ (acc : FileSystem),
      (∀ p, sepPath p (OutDir t) → entriesUnder acc p = entriesUnder fs p) →
      ((retrieveAll c t k arts acc).1 = true ↔
        ∀ a ∈ arts, pathExistsFS fs (getPath c t k ++ a) = true) := by
  induction arts with
  | nil => intro acc hinv; simp [retrieveAll]
  | cons a arts ih =>
    intro acc hinv
    have hsa : sepPath (getPath c t k ++ a) (OutDir t) := sepPath_append_left hsep a
    have hex : pathExistsFS acc (getPath c t k ++ a) =
        pathExistsFS fs (getPath c t k ++ a) := by
      by_cases hfs : pathExistsFS fs (getPath c t k ++ a) = true
      · rw [hfs, pathExistsFS_iff_entriesUnder, hinv _ hsa,
          ← pathExistsFS_iff_entriesUnder]
        exact hfs
      · rw [Bool.not_eq_true] at hfs
        rw [hfs, ← Bool.not_eq_true, pathExistsFS_iff_entriesUnder, hinv _ hsa,
          ← pathExistsFS_iff_entriesUnder, Bool.not_eq_true]
        exact hfs
    by_cases hp : pathExistsFS fs (getPath c t k ++ a) = true
    · have hacc : pathExistsFS acc (getPath c t k ++ a) = true := by rw [hex]; exact hp
      obtain ⟨hok, -, hpres⟩ := RetrieveExtra_of_present c t k a acc hsep hacc
      have hinv2 : ∀ p, sepPath p (OutDir t) →
          entriesUnder (RetrieveExtra c t k a acc).2 p = entriesUnder fs p := by
        intro p hpp
        rw [hpres p hpp]
        exact hinv p hpp
      rw [retrieveAll]
      rcases hR : RetrieveExtra c t k a acc with ⟨ok, fs1⟩
      rw [hR] at hok hinv2
      simp only at hok
      rw [hok]
      simp only [if_true]
      rw [ih fs1 (by simpa using hinv2)]
      constructor
      · intro hall b hb
        rcases List.mem_cons.mp hb with rfl | hb2
        · exact hp
        · exact hall b hb2
      · intro hall b hb
        exact hall b (List.mem_cons_of_mem a hb)
    · rw [Bool.not_eq_true] at hp
      have hacc : pathExistsFS acc (getPath c t k ++ a) = false := by rw [hex]; exact hp
      rw [retrieveAll, RetrieveExtra_of_missing hacc]
      simp only [Bool.false_eq_true, if_false]
      constructor
      · intro hfalse
        exact absurd hfalse (by simp)
      · intro hall
        have := hall a (by simp)
        rw [hp] at this
        exact absurd this (by simp)

theorem retrieveFold_spec (c : dirCache) (t : BuildTarget) (k : List Nat) (fs : FileSystem)
    (hsep : sepPath (getPath c t k) (OutDir t)) (arts : List FPath) :
    ∀ (acc : FileSystem) (D : FPath → Bool),
      (∀ p, sepPath p (OutDir t) → entriesUnder acc p = entriesUnder fs p) →
      (∀ q, fsGet acc (OutDir t ++ q) =
        if D q then (fsGet fs (getPath c t k ++ q)).map (setMode (fileMode t)) else none) →
      (∀ a ∈ arts, pathExistsFS fs (getPath c t k ++ a) = true) →
      (∀ q, fsGet (retrieveAll c t k arts acc).2 (OutDir t ++ q) =
          if (arts.any (fun a => a.isPrefixOf q) || D q)
          then (fsGet fs (getPath c t k ++ q)).map (setMode (fileMode t)) else none) ∧
      (∀ p, sepPath p (OutDir t) →
        entriesUnder (retrieveAll c t k arts acc).2 p = entriesUnder fs p) := by
  induction arts with
  | nil =>
    intro acc D h1 h2 _
    exact ⟨by simpa using h2, h1⟩
  | cons a arts ih =>
    intro acc D h1 h2 hex
    have hcache : entriesUnder acc (getPath c t k) = entriesUnder fs (getPath c t k) :=
      h1 (getPath c t k) hsep
    have hacc : pathExistsFS acc (getPath c t k ++ a) = true := by
      rw [pathExistsFS_iff_entriesUnder, h1 _ (sepPath_append_left hsep a),
        ← pathExistsFS_iff_entriesUnder]
      exact hex a (by simp)
    obtain ⟨hok, hdesc, hpres⟩ := RetrieveExtra_of_present c t k a acc hsep hacc
    have step1 : ∀ p, sepPath p (OutDir t) →
        entriesUnder (RetrieveExtra c t k a acc).2 p = entriesUnder fs p := by
      intro p hpp
      rw [hpres p hpp]
      exact h1 p hpp
    have step2 : ∀ q, fsGet (RetrieveExtra c t k a acc).2 (OutDir t ++ q) =
        if (a.isPrefixOf q || D q)
        then (fsGet fs (getPath c t k ++ q)).map (setMode (fileMode t)) else none := by
      intro q
      rw [hdesc q]
      by_cases hq : a <+: q
      · rw [if_pos hq, fsGet_eq_of_entriesUnder_eq hcache q,
          if_pos (by rw [List.isPrefixOf_iff_prefix.mpr hq, Bool.true_or])]
      · have hb : a.isPrefixOf q = false := by
          rw [Bool.eq_false_iff]
          exact fun hc => hq (List.isPrefixOf_iff_prefix.mp hc)
        rw [if_neg hq, h2 q, hb, Bool.false_or]
    have hrec := ih (RetrieveExtra c t k a acc).2 (fun q => a.isPrefixOf q || D q)
      step1 step2 (fun b hb => hex b (List.mem_cons_of_mem a hb))
    rw [retrieveAll]
    rcases hR : RetrieveExtra c t k a acc with ⟨ok, fs1⟩
    rw [hR] at hok hrec
    simp only at hok
    rw [hok]
    simp only [if_true]
    refine ⟨fun q => ?_, hrec.2⟩
    rw [hrec.1 q, List.any_cons]
    simp only [Bool.or_assoc, Bool.or_comm, Bool.or_left_comm]

/-! ### Cache existence transfer lemmas -/

theorem isSome_map_opt {α β : Type} (f : α → β) (o : Option α) :
    (o.map f).isSome = o.isSome := by
  cases o <;> rfl

theorem pathExistsFS_of_append {fs : FileSystem} {p x : FPath}
    (h : pathExistsFS fs (p ++ x) = true) : pathExistsFS fs p = true := by
  rw [pathExistsFS_iff] at h ⊢
  obtain ⟨e, he, hpre⟩ := h
  exact ⟨e, he, (List.prefix_append p x).trans hpre⟩

theorem pathExistsFS_of_fsGet_isSome {fs : FileSystem} {p : FPath} (r : FPath)
    (h : (fsGet fs (p ++ r)).isSome = true) : pathExistsFS fs p = true := by
  unfold fsGet at h
  rw [isSome_map_opt, List.find?_isSome] at h
  obtain ⟨e, he, hp⟩ := h
  rw [beq_iff_eq] at hp
  rw [pathExistsFS_iff]
  exact ⟨e, he, hp ▸ List.prefix_append p r⟩

theorem exists_fsGet_isSome_of_pathExists {fs : FileSystem} {p : FPath}
    (h : pathExistsFS fs p = true) : ∃ r, (fsGet fs (p ++ r)).isSome = true := by
  rw [pathExistsFS_iff] at h
  obtain ⟨e, he, hp⟩ := h
  obtain ⟨r, hr⟩ := hp
  refine ⟨r, ?_⟩
  unfold fsGet
  rw [isSome_map_opt, List.find?_isSome]
  exact ⟨e, he, by rw [beq_iff_eq, hr]⟩

theorem Retrieve_ok_iff (c : dirCache) (t : BuildTarget) (k : List Nat) (fs2 : FileSystem)
    (hsep : sepPath (getPath c t k) (OutDir t)) :
    (Retrieve c t k fs2).1 = true ↔
      (pathExistsFS fs2 (getPath c t k) = true ∧
        ∀ a ∈ cacheArtifacts t, pathExistsFS fs2 (getPath c t k ++ a) = true) := by
  unfold Retrieve
  by_cases hg : pathExistsFS fs2 (getPath c t k) = true
  · rw [hg]
    simp only [Bool.not_true, Bool.false_eq_true, if_false]
    rw [retrieveAll_ok_iff c t k fs2 hsep (cacheArtifacts t) fs2 (fun _ _ => rfl)]
    constructor
    · intro h
      exact ⟨trivial, h⟩
    · intro h
      exact h.2
  · rw [Bool.not_eq_true] at hg
    rw [hg]
    simp only [Bool.not_false, if_true]
    constructor
    · intro h
      exact absurd h (by simp)
    · intro h
      exact h.1

/-! ### File mode propagation -/

theorem fsGet_fsRemoveAll_mono {fs : FileSystem} {r p : FPath} {f : FileData}
    (h : fsGet (fsRemoveAll fs r) p = some f) : fsGet fs p = some f := by
  rw [fsGet_fsRemoveAll] at h
  by_cases hr : r <+: p
  · rw [if_pos hr] at h
    exact absurd h (by simp)
  · rw [if_neg hr] at h
    exact h

theorem StoreExtra_mode (c : dirCache) (t : BuildTarget) (k : List Nat) (out : FPath)
    (fs : FileSystem) (p : FPath) (f : FileData)
    (h : fsGet (StoreExtra c t k out fs) p = some f) :
    fsGet fs p = some f ∨ f.mode = fileMode t := by
  unfold StoreExtra at h
  cases hc : RecursiveCopyFile (fsRemoveAll fs (getPath c t k ++ out))
      (OutDir t ++ out) (getPath c t k ++ out) (fileMode t) with
  | some fs2 =>
    rw [hc] at h
    rcases fsGet_RecursiveCopyFile_mode hc p f h with h1 | h1
    · exact Or.inl (fsGet_fsRemoveAll_mono h1)
    · exact Or.inr h1
  | none =>
    rw [hc] at h
    exact Or.inl (fsGet_fsRemoveAll_mono h)

theorem storeFold_mode (c : dirCache) (t : BuildTarget) (k : List Nat)
    (arts : List FPath) :
    ∀ (acc : FileSystem) (fs : FileSystem),
      (∀ p f, fsGet acc p = some f → fsGet fs p = some f ∨ f.mode = fileMode t) →
      ∀ p f, fsGet (arts.foldl (fun a out => StoreExtra c t k out a) acc) p = some f →
        fsGet fs p = some f ∨ f.mode = fileMode t := by
  induction arts with
  | nil => intro acc fs hacc p f h; exact hacc p f h
  | cons a arts ih =>
    intro acc fs hacc p f h
    rw [List.foldl_cons] at h
    refine ih (StoreExtra c t k a acc) fs ?_ p f h
    intro p2 f2 h2
    rcases StoreExtra_mode c t k a acc p2 f2 h2 with h3 | h3
    · exact hacc p2 f2 h3
    · exact Or.inr h3

theorem Store_mode (c : dirCache) (t : BuildTarget) (k : List Nat) (fs : FileSystem)
    (p : FPath) (f : FileData) (h : fsGet (Store c t k fs) p = some f) :
    fsGet fs p = some f ∨ f.mode = fileMode t := by
  rw [Store] at h
  exact storeFold_mode c t k (cacheArtifacts t) _ fs
    (fun p2 f2 h2 => Or.inl (fsGet_fsRemoveAll_mono h2)) p f h

theorem RetrieveExtra_mode (c : dirCache) (t : BuildTarget) (k : List Nat) (out : FPath)
    (fs : FileSystem) (p : FPath) (f : FileData)
    (h : fsGet (RetrieveExtra c t k out fs).2 p = some f) :
    fsGet fs p = some f ∨ f.mode = fileMode t := by
  unfold RetrieveExtra at h
  by_cases hex : pathExistsFS fs (getPath c t k ++ out) = true
  · rw [hex] at h
    simp only [Bool.not_true, Bool.false_eq_true, if_false] at h
    cases hc : RecursiveCopyFile (fsRemoveAll fs (OutDir t ++ out))
        (getPath c t k ++ out) (OutDir t ++ out) (fileMode t) with
    | some fs2 =>
      rw [hc] at h
      rcases fsGet_RecursiveCopyFile_mode hc p f h with h1 | h1
      · exact Or.inl (fsGet_fsRemoveAll_mono h1)
      · exact Or.inr h1
    | none =>
      rw [hc] at h
      exact Or.inl (fsGet_fsRemoveAll_mono h)
  · rw [Bool.not_eq_true] at hex
    rw [hex] at h
    simp only [Bool.not_false, if_true] at h
    exact Or.inl h

theorem retrieveAll_mode (c : dirCache) (t : BuildTarget) (k : List Nat)
    (arts : List FPath) :
    ∀ (acc : FileSystem) (fs : FileSystem),
      (∀ p f, fsGet acc p = some f → fsGet fs p = some f ∨ f.mode = fileMode t) →
      ∀ p f, fsGet (retrieveAll c t k arts acc).2 p = some f →
        fsGet fs p = some f ∨ f.mode = fileMode t := by
  induction arts with
  | nil => intro acc fs hacc p f h; exact hacc p f h
  | cons a arts ih =>
    intro acc fs hacc p f h
    rw [retrieveAll] at h
    have hstep : ∀ p2 f2, fsGet (RetrieveExtra c t k a acc).2 p2 = some f2 →
        fsGet fs p2 = some f2 ∨ f2.mode = fileMode t := by
      intro p2 f2 h2
      rcases RetrieveExtra_mode c t k a acc p2 f2 h2 with h3 | h3
      · exact hacc p2 f2 h3
      · exact Or.inr h3
    rcases hR : RetrieveExtra c t k a acc with ⟨ok, fs1⟩
    rw [hR] at h hstep
    cases ok with
    | true =>
      simp only [if_true] at h
      exact ih fs1 fs (fun p2 f2 h2 => hstep p2 f2 h2) p f h
    | false =>
      simp only [Bool.false_eq_true, if_false] at h
      exact hstep p f h

theorem Retrieve_mode (c : dirCache) (t : BuildTarget) (k : List Nat) (fs : FileSystem)
    (p : FPath) (f : FileData) (h : fsGet (Retrieve c t k fs).2 p = some f) :
    fsGet fs p = some f ∨ f.mode = fileMode t := by
  unfold Retrieve at h
  by_cases hg : pathExistsFS fs (getPath c t k) = true
  · rw [hg] at h
    simp only [Bool.not_true, Bool.false_eq_true, if_false] at h
    exact retrieveAll_mode c t k (cacheArtifacts t) fs fs (fun _ _ h2 => Or.inl h2) p f h
  · rw [Bool.not_eq_true] at hg
    rw [hg] at h
    simp only [Bool.not_false, if_true] at h
    exact Or.inl h

/-- C1 (amended): provided the key directory and the out-dir are separated,
`cacheArtifacts(T)` is non-empty, and every artifact exists in the out-dir
when `Store(T, K)` runs — after `Store(T, K)` and emptying the out-dir,
`Retrieve(T, K)` succeeds and restores exactly the artifacts, each at its
declared path under the out-dir (with the cache file mode); and on any
filesystem `Retrieve` succeeds iff the key directory exists and every
expected artifact exists in it. -/
theorem cache_store_retrieve_round_trip (c : dirCache) (t : BuildTarget) (k : List Nat)
    (fs : FileSystem) (hsep : sepPath (getPath c t k) (OutDir t))
    (hne : cacheArtifacts t ≠ [])
    (hpresent : ∀ a ∈ cacheArtifacts t, pathExistsFS fs (OutDir t ++ a) = true) :
    (Retrieve c t k (fsRemoveAll (Store c t k fs) (OutDir t))).1 = true ∧
    (∀ q, fsGet (Retrieve c t k (fsRemoveAll (Store c t k fs) (OutDir t))).2 (OutDir t ++ q) =
      if (cacheArtifacts t).any (fun a => a.isPrefixOf q)
      then (fsGet fs (OutDir t ++ q)).map (setMode (fileMode t)) else none) ∧
    (∀ fs2, (Retrieve c t k fs2).1 = true ↔
      (pathExistsFS fs2 (getPath c t k) = true ∧
        ∀ a ∈ cacheArtifacts t, pathExistsFS fs2 (getPath c t k ++ a) = true)) := by
  have hEcache : ∀ p, sepPath p (OutDir t) →
      entriesUnder (fsRemoveAll (Store c t k fs) (OutDir t)) p =
        entriesUnder (Store c t k fs) p :=
    fun p hp => entriesUnder_fsRemoveAll_sep (Store c t k fs) hp
  have hf2 : ∀ a ∈ cacheArtifacts t,
      pathExistsFS (Store c t k fs) (getPath c t k ++ a) = true := by
    intro a ha
    obtain ⟨r, hr⟩ := exists_fsGet_isSome_of_pathExists (hpresent a ha)
    rw [List.append_assoc] at hr
    have hcnd : (cacheArtifacts t).any (fun x => x.isPrefixOf (a ++ r)) = true := by
      rw [List.any_eq_true]
      exact ⟨a, ha, List.isPrefixOf_iff_prefix.mpr ⟨r, rfl⟩⟩
    have hstore := Store_fsGet_cache c t k fs hsep (a ++ r)
    rw [if_pos hcnd] at hstore
    apply pathExistsFS_of_fsGet_isSome r
    rw [List.append_assoc, hstore, isSome_map_opt]
    exact hr
  have hf2E : ∀ a ∈ cacheArtifacts t,
      pathExistsFS (fsRemoveAll (Store c t k fs) (OutDir t)) (getPath c t k ++ a) = true := by
    intro a ha
    rw [pathExistsFS_iff_entriesUnder, hEcache _ (sepPath_append_left hsep a),
      ← pathExistsFS_iff_entriesUnder]
    exact hf2 a ha
  have hgE : pathExistsFS (fsRemoveAll (Store c t k fs) (OutDir t)) (getPath c t k) = true := by
    obtain ⟨a, ha⟩ := List.exists_mem_of_ne_nil _ hne
    exact pathExistsFS_of_append (hf2E a ha)
  have hret : Retrieve c t k (fsRemoveAll (Store c t k fs) (OutDir t)) =
      retrieveAll c t k (cacheArtifacts t) (fsRemoveAll (Store c t k fs) (OutDir t)) := by
    unfold Retrieve
    rw [hgE]
    rfl
  have hok1 : (Retrieve c t k (fsRemoveAll (Store c t k fs) (OutDir t))).1 = true := by
    rw [hret, retrieveAll_ok_iff c t k (fsRemoveAll (Store c t k fs) (OutDir t)) hsep
      (cacheArtifacts t) (fsRemoveAll (Store c t k fs) (OutDir t)) (fun _ _ => rfl)]
    exact hf2E
  refine ⟨hok1, ?_, fun fs2 => Retrieve_ok_iff c t k fs2 hsep⟩
  have hD : ∀ q, fsGet (fsRemoveAll (Store c t k fs) (OutDir t)) (OutDir t ++ q) =
      if (fun _ : FPath => false) q
      then (fsGet (fsRemoveAll (Store c t k fs) (OutDir t))
        (getPath c t k ++ q)).map (setMode (fileMode t)) else none := by
    intro q
    rw [fsGet_fsRemoveAll, if_pos (List.prefix_append _ q)]
    rfl
  have hfold := retrieveFold_spec c t k (fsRemoveAll (Store c t k fs) (OutDir t)) hsep
    (cacheArtifacts t) (fsRemoveAll (Store c t k fs) (OutDir t)) (fun _ => false)
    (fun _ _ => rfl) hD hf2E
  intro q
  rw [hret]
  have h1 := hfold.1 q
  rw [Bool.or_false] at h1
  rw [h1]
  by_cases hany : (cacheArtifacts t).any (fun a => a.isPrefixOf q) = true
  · rw [if_pos hany, if_pos hany]
    have hEc : fsGet (fsRemoveAll (Store c t k fs) (OutDir t)) (getPath c t k ++ q) =
        fsGet (Store c t k fs) (getPath c t k ++ q) :=
      fsGet_eq_of_entriesUnder_eq (hEcache (getPath c t k) hsep) q
    rw [hEc, Store_fsGet_cache c t k fs hsep q, if_pos hany, Option.map_map]
    cases fsGet fs (OutDir t ++ q) <;> rfl
  · rw [if_neg hany, if_neg hany]

/-- Witness for C1 at a concrete binary target with one artifact. -/
theorem cache_store_retrieve_round_trip_witness :
    (Retrieve cacheRootEx binTargetZ [1]
      (fsRemoveAll (Store cacheRootEx binTargetZ [1] fsOutZ) (OutDir binTargetZ))).1 = true :=
  (cache_store_retrieve_round_trip cacheRootEx binTargetZ [1] fsOutZ
    (by decide) (by decide) (by decide)).1

/-- C1 counterexample: for a target with no artifacts (out-dir trivially
complete), `Store` then emptying the out-dir then `Retrieve` reports a miss,
so the claim as stated fails. -/
theorem cache_round_trip_counterexample :
    cacheArtifacts emptyOutsTarget = [] ∧
    (Retrieve cacheRootEx emptyOutsTarget [1]
      (fsRemoveAll (Store cacheRootEx emptyOutsTarget [1] []) (OutDir emptyOutsTarget))).1 =
        false := by
  decide

/-- C8: every file written by `Store`/`StoreExtra` into the cache and every
file written by `Retrieve`/`RetrieveExtra` into the out-dir (i.e. any file
of the result not already present in the input filesystem) has mode 0555
when the target is binary and 0444 otherwise. -/
theorem cache_file_mode_0555_0444 (c : dirCache) (t : BuildTarget) (k : List Nat)
    (out : FPath) (fs : FileSystem) (p : FPath) (f : FileData) :
    (fsGet (StoreExtra c t k out fs) p = some f →
      fsGet fs p = some f ∨ f.mode = (if t.isBinary then 0o555 else 0o444)) ∧
    (fsGet (Store c t k fs) p = some f →
      fsGet fs p = some f ∨ f.mode = (if t.isBinary then 0o555 else 0o444)) ∧
    (fsGet (RetrieveExtra c t k out fs).2 p = some f →
      fsGet fs p = some f ∨ f.mode = (if t.isBinary then 0o555 else 0o444)) ∧
    (fsGet (Retrieve c t k fs).2 p = some f →
      fsGet fs p = some f ∨ f.mode = (if t.isBinary then 0o555 else 0o444)) := by
  have hm : (if t.isBinary then 0o555 else 0o444) = fileMode t := rfl
  rw [hm]
  exact ⟨StoreExtra_mode c t k out fs p f, Store_mode c t k fs p f,
    RetrieveExtra_mode c t k out fs p f, Retrieve_mode c t k fs p f⟩

/-- Witness for C8: the artifact stored for a binary target carries mode 0555. -/
theorem cache_file_mode_0555_0444_witness :
    fsGet fsOutZ (getPath cacheRootEx binTargetZ [1] ++ ["z"]) = some ⟨7, 0o555⟩ ∨
      (FileData.mk 7 0o555).mode = (if binTargetZ.isBinary then 0o555 else 0o444) :=
  (cache_file_mode_0555_0444 cacheRootEx binTargetZ [1] [] fsOutZ
    (getPath cacheRootEx binTargetZ [1] ++ ["z"]) ⟨7, 0o555⟩).2.1 (by decide)

/-! ### C2: GetSubincludeFile protocol -/

/-- C2 (amended): for a subinclude label requested from a package — an
unparsed package records a deferred parse and returns DEFER; a parsed
package without the target fails (Unsubincludable); an existing target that
is not visible fails (VisibilityViolation); a visible target without
exactly one output fails (MultipleOutputs); a visible single-output target
below state Built records a deferral and returns DEFER; and a visible
single-output Built target yields the on-disk path of its output.  (The
visibility and output-count checks precede the state check.) -/
theorem getSubincludeFile_protocol (canSee : BuildLabel → BuildTarget → Bool)
    (g : BuildGraph) (pkgName : String) (label : BuildLabel) :
    (g.Target label = none → g.PackageParsed label.packageName = false →
      GetSubincludeFile canSee g pkgName label = (.deferSentinel, some (label, pkgName))) ∧
    (g.Target label = none → g.PackageParsed label.packageName = true →
      GetSubincludeFile canSee g pkgName label = (.panicUnsubincludable label, none)) ∧
    (∀ t, g.Target label = some t → canSee ⟨pkgName, "all"⟩ t = false →
      GetSubincludeFile canSee g pkgName label = (.panicVisibility label, none)) ∧
    (∀ t, g.Target label = some t → canSee ⟨pkgName, "all"⟩ t = true →
      t.outs.length ≠ 1 →
      GetSubincludeFile canSee g pkgName label = (.panicMultipleOutputs label, none)) ∧
    (∀ t, g.Target label = some t → canSee ⟨pkgName, "all"⟩ t = true →
      t.outs.length = 1 → t.state.rank < TargetState.rank .built →
      GetSubincludeFile canSee g pkgName label = (.deferSentinel, some (label, pkgName))) ∧
    (∀ t, g.Target label = some t → canSee ⟨pkgName, "all"⟩ t = true →
      t.outs.length = 1 → TargetState.rank .built ≤ t.state.rank →
      GetSubincludeFile canSee g pkgName label =
        (.path (OutDir t ++ splitPath (t.outs.headD "")), none)) := by
  refine ⟨?_, ?_, ?_, ?_, ?_, ?_⟩
  · intro h1 h2
    unfold GetSubincludeFile
    rw [h1, h2]
    rfl
  · intro h1 h2
    unfold GetSubincludeFile
    rw [h1, h2]
    rfl
  · intro t h1 h2
    unfold GetSubincludeFile
    rw [h1]
    simp [h2]
  · intro t h1 h2 h3
    unfold GetSubincludeFile
    rw [h1]
    simp [h2, h3]
  · intro t h1 h2 h3 h4
    unfold GetSubincludeFile
    rw [h1]
    simp [h2, h3, h4]
  · intro t h1 h2 h3 h4
    unfold GetSubincludeFile
    rw [h1]
    simp only [h2, h3]
    rw [if_neg (by simp), if_neg (by simp), if_neg (by omega)]

/-- Witness for C2 at a concrete graph: a visible two-output target fails
with MultipleOutputs. -/
theorem getSubincludeFile_protocol_witness :
    GetSubincludeFile (fun _ _ => true) subincludeGraphEx "b" ⟨"a", "rules"⟩ =
      (.panicMultipleOutputs ⟨"a", "rules"⟩, none) :=
  (getSubincludeFile_protocol (fun _ _ => true) subincludeGraphEx "b"
      ⟨"a", "rules"⟩).2.2.2.1 subincludeTargetEx rfl rfl (by decide)

/-- C2 counterexample: a target that exists with state below Built but two
outputs makes `GetSubincludeFile` panic with MultipleOutputs instead of
returning DEFER, so the claim's state-first ordering fails on the code. -/
theorem getSubincludeFile_defer_counterexample :
    subincludeTargetEx.state.rank < TargetState.rank .built ∧
    (GetSubincludeFile (fun _ _ => true) subincludeGraphEx "b" ⟨"a", "rules"⟩).1 =
      .panicMultipleOutputs ⟨"a", "rules"⟩ := by
  exact ⟨by decide, rfl⟩

/-! ### C4: post-build mutation guard -/

/-- C4: every post-build mutation callback fails with UnknownTarget when
the named target is missing, fails with ImmutableBuiltTarget when its state
is at or beyond Built, and proceeds to the mutation only on a known,
not-yet-built target (AddOutputPost can then still fail on an output
conflict). -/
theorem post_build_mutation_guard (pkg : Package) (name dep out licence cmd : String)
    (exported : Bool) :
    (pkg.findTarget name = none →
      AddDependencyPost pkg name dep exported = .error (.unknownTarget name pkg.name) ∧
      AddOutputPost pkg name out = .error (.unknownTarget name pkg.name) ∧
      AddLicencePost pkg name licence = .error (.unknownTarget name pkg.name) ∧
      SetCommand pkg name cmd = .error (.unknownTarget name pkg.name)) ∧
    (∀ t, pkg.findTarget name = some t → TargetState.rank .built ≤ t.state.rank →
      AddDependencyPost pkg name dep exported = .error (.immutableBuiltTarget t.label) ∧
      AddOutputPost pkg name out = .error (.immutableBuiltTarget t.label) ∧
      AddLicencePost pkg name licence = .error (.immutableBuiltTarget t.label) ∧
      SetCommand pkg name cmd = .error (.immutableBuiltTarget t.label)) ∧
    (∀ t, pkg.findTarget name = some t → t.state.rank < TargetState.rank .built →
      (∃ t2, AddDependencyPost pkg name dep exported = .ok (pkg.setTarget name t2)) ∧
      ((∃ pkg1, AddOutputPost pkg name out = .ok pkg1) ∨
        AddOutputPost pkg name out = .error (.duplicateOutput out pkg.name)) ∧
      AddLicencePost pkg name licence = .ok (pkg.setTarget name (t.AddLicence licence)) ∧
      SetCommand pkg name cmd = .ok (pkg.setTarget name { t with command := cmd })) := by
  refine ⟨?_, ?_, ?_⟩
  · intro h
    have hg : getTargetPost pkg name = .error (.unknownTarget name pkg.name) := by
      unfold getTargetPost
      rw [h]
    unfold AddDependencyPost AddOutputPost AddLicencePost SetCommand
    rw [hg]
    exact ⟨rfl, rfl, rfl, rfl⟩
  · intro t h hrank
    have hg : getTargetPost pkg name = .error (.immutableBuiltTarget t.label) := by
      unfold getTargetPost
      rw [h]
      dsimp only
      rw [if_pos hrank]
    unfold AddDependencyPost AddOutputPost AddLicencePost SetCommand
    rw [hg]
    exact ⟨rfl, rfl, rfl, rfl⟩
  · intro t h hrank
    have hg : getTargetPost pkg name = .ok t := by
      unfold getTargetPost
      rw [h]
      dsimp only
      rw [if_neg (by omega)]
    unfold AddDependencyPost AddOutputPost AddLicencePost SetCommand
    rw [hg]
    dsimp only
    refine ⟨⟨_, rfl⟩, ?_, rfl, rfl⟩
    cases hro : pkg.RegisterOutput out t with
    | ok pkg1 => exact Or.inl ⟨_, rfl⟩
    | error e =>
      right
      unfold Package.RegisterOutput at hro
      cases hf : pkg.outputs.find? (fun e => e.1 == out) with
      | none =>
        rw [hf] at hro
        exact absurd hro (by simp)
      | some pr =>
        rw [hf] at hro
        dsimp only at hro
        by_cases hpr : pr.2 = t.label.name
        · rw [if_pos hpr] at hro
          exact absurd hro (by simp)
        · rw [if_neg hpr] at hro
          have he : PostErr.duplicateOutput out pkg.name = e := Except.error.inj hro
          rw [← he]

/-- Witness for C4: mutating the already-built target `//x:done` fails. -/
theorem post_build_mutation_guard_witness :
    SetCommand pkgPostEx "done" "new" = .error (.immutableBuiltTarget ⟨"x", "done"⟩) :=
  ((post_build_mutation_guard pkgPostEx "done" ":d" "o" "MIT" "new" false).2.1
    builtTargetEx rfl (by decide)).2.2.2

/-! ### C5: addTarget validation -/

theorem newTargetFor_fields (pkg : Package) (name cmd testCmd : String)
    (binary test needsTransitiveDeps outputIsComplete containerise noTestOutput
      skipCache testOnly : Bool)
    (flakiness buildTimeout testTimeout : Int) (buildingDescription : String) :
    (newTargetFor pkg name cmd testCmd binary test needsTransitiveDeps outputIsComplete
      containerise noTestOutput skipCache testOnly flakiness buildTimeout testTimeout
      buildingDescription).label = ⟨pkg.name, name⟩ ∧
    (newTargetFor pkg name cmd testCmd binary test needsTransitiveDeps outputIsComplete
      containerise noTestOutput skipCache testOnly flakiness buildTimeout testTimeout
      buildingDescription).command = cmd ∧
    (newTargetFor pkg name cmd testCmd binary test needsTransitiveDeps outputIsComplete
      containerise noTestOutput skipCache testOnly flakiness buildTimeout testTimeout
      buildingDescription).testCommand = testCmd ∧
    (newTargetFor pkg name cmd testCmd binary test needsTransitiveDeps outputIsComplete
      containerise noTestOutput skipCache testOnly flakiness buildTimeout testTimeout
      buildingDescription).isTest = test ∧
    (newTargetFor pkg name cmd testCmd binary test needsTransitiveDeps outputIsComplete
      containerise noTestOutput skipCache testOnly flakiness buildTimeout testTimeout
      buildingDescription).isBinary = binary := by
  unfold newTargetFor BuildTarget.AddLabel
  dsimp only
  split <;> split <;> split <;> (try split) <;> (try split) <;> (try split) <;>
    exact ⟨rfl, rfl, rfl, rfl, rfl⟩

/-- C5: `addTarget` fails on a duplicate name, on a non-test target with a
test command, and on a test target without one; otherwise the constructed
target is registered in the package under its name. -/
theorem addTarget_validation (pkg : Package) (name cmd testCmd : String)
    (binary test needsTransitiveDeps outputIsComplete containerise noTestOutput
      skipCache testOnly : Bool)
    (flakiness buildTimeout testTimeout : Int) (buildingDescription : String) :
    ((pkg.findTarget name).isSome = true →
      addTarget pkg name cmd testCmd binary test needsTransitiveDeps outputIsComplete
        containerise noTestOutput skipCache testOnly flakiness buildTimeout testTimeout
        buildingDescription = .error (.duplicateTarget pkg.name name)) ∧
    (pkg.findTarget name = none → testCmd ≠ "" → test = false →
      addTarget pkg name cmd testCmd binary test needsTransitiveDeps outputIsComplete
        containerise noTestOutput skipCache testOnly flakiness buildTimeout testTimeout
        buildingDescription = .error (.testCommandNotTest ⟨pkg.name, name⟩)) ∧
    (pkg.findTarget name = none → test = true → testCmd = "" →
      addTarget pkg name cmd testCmd binary test needsTransitiveDeps outputIsComplete
        containerise noTestOutput skipCache testOnly flakiness buildTimeout testTimeout
        buildingDescription = .error (.testNoCommand ⟨pkg.name, name⟩)) ∧
    (pkg.findTarget name = none → (test = true ↔ testCmd ≠ "") →
      addTarget pkg name cmd testCmd binary test needsTransitiveDeps outputIsComplete
        containerise noTestOutput skipCache testOnly flakiness buildTimeout testTimeout
        buildingDescription = .ok { pkg with targets := pkg.targets ++
          [(name, newTargetFor pkg name cmd testCmd binary test needsTransitiveDeps
            outputIsComplete containerise noTestOutput skipCache testOnly flakiness
            buildTimeout testTimeout buildingDescription)] } ∧
      ({ pkg with targets := pkg.targets ++
          [(name, newTargetFor pkg name cmd testCmd binary test needsTransitiveDeps
            outputIsComplete containerise noTestOutput skipCache testOnly flakiness
            buildTimeout testTimeout buildingDescription)] } : Package).findTarget name =
        some (newTargetFor pkg name cmd testCmd binary test needsTransitiveDeps
          outputIsComplete containerise noTestOutput skipCache testOnly flakiness
          buildTimeout testTimeout buildingDescription)) := by
  obtain ⟨hl, hc, htc, hit, hib⟩ := newTargetFor_fields pkg name cmd testCmd binary test
    needsTransitiveDeps outputIsComplete containerise noTestOutput skipCache testOnly
    flakiness buildTimeout testTimeout buildingDescription
  refine ⟨?_, ?_, ?_, ?_⟩
  · intro h
    unfold addTarget
    rw [h]
    rfl
  · intro h htcmd htest
    unfold addTarget
    have hnone : (pkg.findTarget name).isSome = false := by rw [h]; rfl
    rw [hnone]
    dsimp only
    rw [if_neg (by simp), if_pos ⟨by rw [htc]; exact htcmd, by rw [hit]; exact htest⟩, hl]
  · intro h htest htcmd
    unfold addTarget
    have hnone : (pkg.findTarget name).isSome = false := by rw [h]; rfl
    rw [hnone]
    dsimp only
    rw [if_neg (by simp),
      if_neg (by rw [htc]; intro hcon; exact hcon.1 htcmd),
      if_pos ⟨by rw [hit]; exact htest, by rw [htc]; exact htcmd⟩, hl]
  · intro h hiff
    have hnone : (pkg.findTarget name).isSome = false := by rw [h]; rfl
    constructor
    · unfold addTarget
      rw [hnone]
      dsimp only
      rw [if_neg (by simp),
        if_neg (by rw [htc, hit]; intro hcon; rw [hiff.mpr hcon.1] at hcon; exact absurd hcon.2 (by simp)),
        if_neg (by rw [htc, hit]; intro hcon; exact (hiff.mp hcon.1) hcon.2)]
    · unfold Package.findTarget at h ⊢
      dsimp only
      rw [List.find?_append]
      have hfn : pkg.targets.find? (fun e => e.1 == name) = none := by
        cases hfind : pkg.targets.find? (fun e => e.1 == name) with
        | none => rfl
        | some e => rw [hfind] at h; exact absurd h (by simp)
      rw [hfn]
      simp

/-- Witness for C5: registering a fresh non-test target succeeds. -/
theorem addTarget_validation_witness :
    addTarget pkgPostEx "newt" "cc" "" false false false false false false false false
      0 0 0 "" = .ok { pkgPostEx with targets := pkgPostEx.targets ++
        [("newt", newTargetFor pkgPostEx "newt" "cc" "" false false false false false
          false false false 0 0 0 "")] } :=
  ((addTarget_validation pkgPostEx "newt" "cc" "" false false false false false false
    false false 0 0 0 "").2.2.2 rfl (by simp)).1

/-! ### C9: exported dependencies are dependencies -/

theorem AddDependency_exported (t : BuildTarget) (dep : BuildLabel) :
    (t.AddDependency dep).exportedDependencies = t.exportedDependencies := by
  unfold BuildTarget.AddDependency
  split <;> rfl

theorem AddDependency_mem_self (t : BuildTarget) (dep : BuildLabel) :
    dep ∈ (t.AddDependency dep).dependencies := by
  unfold BuildTarget.AddDependency
  split
  next hmem => exact hmem
  next hmem => simp

theorem AddDependency_deps_mono (t : BuildTarget) (dep l : BuildLabel)
    (h : l ∈ t.dependencies) : l ∈ (t.AddDependency dep).dependencies := by
  unfold BuildTarget.AddDependency
  split
  next => exact h
  next => simp [h]

theorem AddExportedDependency_deps (t : BuildTarget) (dep : BuildLabel) :
    (t.AddExportedDependency dep).dependencies = t.dependencies := by
  unfold BuildTarget.AddExportedDependency
  split <;> rfl

theorem AddExportedDependency_mem (t : BuildTarget) (dep l : BuildLabel)
    (h : l ∈ (t.AddExportedDependency dep).exportedDependencies) :
    l = dep ∨ l ∈ t.exportedDependencies := by
  unfold BuildTarget.AddExportedDependency at h
  revert h
  split
  · intro h
    exact Or.inr h
  · intro h
    simp only [List.mem_append, List.mem_singleton] at h
    rcases h with h2 | h2
    · exact Or.inr h2
    · exact Or.inl h2

/-- One dependency-adding callback preserves the invariant. -/
theorem applyDepOp_invariant (t : BuildTarget) (op : DepOp)
    (h : ∀ l ∈ t.exportedDependencies, l ∈ t.dependencies) :
    ∀ l ∈ (applyDepOp t op).exportedDependencies, l ∈ (applyDepOp t op).dependencies := by
  cases op with
  | addDep d =>
    intro l hl
    rw [applyDepOp, AddDependency_exported] at hl
    exact AddDependency_deps_mono t _ l (h l hl)
  | addExportedDep d =>
    intro l hl
    rw [applyDepOp] at hl ⊢
    rw [AddExportedDependency_deps]
    rcases AddExportedDependency_mem _ _ _ hl with rfl | hl2
    · exact AddDependency_mem_self t _
    · rw [AddDependency_exported] at hl2
      exact AddDependency_deps_mono t _ l (h l hl2)
  | addDependencyCB d exported =>
    intro l hl
    rw [applyDepOp] at hl ⊢
    cases exported with
    | true =>
      simp only [if_true] at hl ⊢
      rw [AddExportedDependency_deps]
      rcases AddExportedDependency_mem _ _ _ hl with rfl | hl2
      · exact AddDependency_mem_self t _
      · rw [AddDependency_exported] at hl2
        exact AddDependency_deps_mono t _ l (h l hl2)
    | false =>
      simp only [Bool.false_eq_true, if_false] at hl ⊢
      rw [AddDependency_exported] at hl
      exact AddDependency_deps_mono t _ l (h l hl)

/-- C9: after any sequence of the dependency-adding callbacks, every
exported dependency is also a dependency. -/
theorem exported_subset_dependencies (ops : List DepOp) (t : BuildTarget)
    (h : ∀ l ∈ t.exportedDependencies, l ∈ t.dependencies) :
    ∀ l ∈ (applyDepOps t ops).exportedDependencies, l ∈ (applyDepOps t ops).dependencies := by
  induction ops generalizing t with
  | nil => exact h
  | cons op ops ih =>
    rw [applyDepOps, List.foldl_cons]
    exact ih (applyDepOp t op) (applyDepOp_invariant t op h)

/-- Witness for C9: an exported dependency added by `AddExportedDep` is in
the dependency set afterwards. -/
theorem exported_subset_dependencies_witness :
    (⟨"lib", "lib"⟩ : BuildLabel) ∈
      (applyDepOps (NewBuildTarget ⟨"x", "t"⟩) [.addExportedDep "//lib"]).dependencies :=
  exported_subset_dependencies [.addExportedDep "//lib"] (NewBuildTarget ⟨"x", "t"⟩)
    (by simp [NewBuildTarget]) ⟨"lib", "lib"⟩ (by decide)

/-! ### C10: parseSource on the empty string -/

theorem parseSource_panic_iff (isPkg : List String → Bool) (src packageName : String) :
    parseSource isPkg src packageName = .panicIndexOutOfRange ↔ src = "" := by
  constructor
  · intro h
    by_cases h1 : LooksLikeABuildLabel src = true
    · unfold parseSource at h
      rw [if_pos h1] at h
      revert h
      cases ParseBuildFileLabel src packageName with
      | mk label file =>
        dsimp only
        split <;> intro h <;> exact ParseSourceResult.noConfusion h
    · rw [Bool.not_eq_true] at h1
      unfold parseSource at h
      rw [if_neg (by simp [h1])] at h
      by_cases h2 : strContains src "../" = true
      · rw [if_pos h2] at h
        exact ParseSourceResult.noConfusion h
      · rw [Bool.not_eq_true] at h2
        rw [if_neg (by simp [h2])] at h
        cases hd : src.data with
        | nil =>
          cases src with
          | mk data => cases hd; rfl
        | cons c cs =>
          rw [hd] at h
          dsimp only at h
          by_cases h3 : c = '/'
          · rw [if_pos h3] at h
            exact ParseSourceResult.noConfusion h
          · rw [if_neg h3] at h
            by_cases h4 : strContains src "/" = true
            · rw [if_pos h4] at h
              revert h
              cases dirLoop isPkg (splitPath packageName)
                  ((splitPath packageName ++ splitPath src).dropLast) <;>
                intro h <;> exact ParseSourceResult.noConfusion h
            · rw [Bool.not_eq_true] at h4
              rw [if_neg (by simp [h4])] at h
              exact ParseSourceResult.noConfusion h
  · intro h
    subst h
    rfl

/-- C10: `parseSource` crashes with the index-out-of-range panic on `src[0]`
exactly when the source string is empty, and the callers `AddSource`,
`AddNamedSource` and `AddData` propagate that crash exactly then, so a
non-empty source string is their precondition for not crashing. -/
theorem parseSource_empty_source_panics :
    (∀ (isPkg : List String → Bool) (packageName src : String),
      parseSource isPkg src packageName = .panicIndexOutOfRange ↔ src = "") ∧
    (∀ (isPkg : List String → Bool) (t : BuildTarget) (src : String),
      AddSource isPkg t src = .panicIndexOutOfRange ↔ src = "") ∧
    (∀ (isPkg : List String → Bool) (t : BuildTarget) (name src : String),
      AddNamedSource isPkg t name src = .panicIndexOutOfRange ↔ src = "") ∧
    (∀ (isPkg : List String → Bool) (t : BuildTarget) (src : String),
      AddData isPkg t src = .panicIndexOutOfRange ↔ src = "") := by
  have hcaller : ∀ (isPkg : List String → Bool) (t : BuildTarget) (src : String)
      (f : BuildInput → AddSourceResult)
      (hf : ∀ s, f s ≠ .panicIndexOutOfRange),
      ((match parseSource isPkg src t.label.packageName with
        | .ok s => f s
        | .fail e => .fail e
        | .panicIndexOutOfRange => .panicIndexOutOfRange) = AddSourceResult.panicIndexOutOfRange
        ↔ src = "") := by
    intro isPkg t src f hf
    cases hp : parseSource isPkg src t.label.packageName with
    | ok s =>
      constructor
      · intro h
        exact absurd h (hf s)
      · intro h
        subst h
        rw [(parseSource_panic_iff isPkg "" t.label.packageName).mpr rfl] at hp
        exact ParseSourceResult.noConfusion hp
    | fail e =>
      constructor
      · intro h
        exact AddSourceResult.noConfusion h
      · intro h
        subst h
        rw [(parseSource_panic_iff isPkg "" t.label.packageName).mpr rfl] at hp
        exact ParseSourceResult.noConfusion hp
    | panicIndexOutOfRange =>
      constructor
      · intro _
        exact (parseSource_panic_iff isPkg src t.label.packageName).mp hp
      · intro _
        rfl
  refine ⟨fun isPkg p src => parseSource_panic_iff isPkg src p, ?_, ?_, ?_⟩
  · intro isPkg t src
    unfold AddSource
    exact hcaller isPkg t src _ (fun s => by
      cases hsl : s.Label <;> exact fun h => AddSourceResult.noConfusion h)
  · intro isPkg t name src
    unfold AddNamedSource
    exact hcaller isPkg t src _ (fun s => by
      cases hsl : s.Label <;> exact fun h => AddSourceResult.noConfusion h)
  · intro isPkg t src
    unfold AddData
    exact hcaller isPkg t src _ (fun s => by
      cases hsl : s.Label <;> exact fun h => AddSourceResult.noConfusion h)

/-- Witness for C10 at a concrete empty source. -/
theorem parseSource_empty_source_panics_witness :
    parseSource (fun _ => false) "" "x" = .panicIndexOutOfRange :=
  (parseSource_empty_source_panics.1 (fun _ => false) "x" "").mpr rfl

/-! ### C3: parseSource classification -/

theorem any_congr_mem {α : Type} {f g : α → Bool} {l : List α}
    (h : ∀ a ∈ l, f a = g a) : l.any f = l.any g := by
  induction l with
  | nil => rfl
  | cons a l ih =>
    rw [List.any_cons, List.any_cons, h a (by simp), ih fun b hb => h b (by simp [hb])]

theorem splitCharsAux_ne_nil (sep : Char) (cs acc : List Char) :
    splitCharsAux sep cs acc ≠ [] := by
  induction cs generalizing acc with
  | nil => simp [splitCharsAux]
  | cons c cs ih =>
    unfold splitCharsAux
    by_cases hc : c = sep
    · simp [hc]
    · simp only [if_neg hc]
      exact ih (c :: acc)

theorem splitPath_ne_nil {s : String} (h : s ≠ "") : splitPath s ≠ [] := by
  unfold splitPath splitOnChar
  rw [if_neg h]
  intro hc
  exact splitCharsAux_ne_nil '/' s.data [] (by simpa using hc)

theorem strContains_slash_ne_empty {s : String} (h : strContains s "/" = true) : s ≠ "" := by
  intro hc
  subst hc
  exact absurd h (by decide)

theorem dirLoop_append_eq_none_iff (isPkg : List String → Bool) (pkg : List String)
    (l : List String) :
    dirLoop isPkg pkg (pkg ++ l) = none ↔
      (List.range l.length).any (fun j => isPkg (pkg ++ l.take (j + 1))) = false := by
  induction l using List.reverseRecOn with
  | nil => simp [dirLoop]
  | append_singleton l a ih =>
    have hne : pkg ++ (l ++ [a]) ≠ pkg := by
      intro hc
      have hlen := congrArg List.length hc
      simp at hlen
    have hemp : (pkg ++ (l ++ [a])).isEmpty = false := by
      cases hpa : pkg ++ (l ++ [a]) with
      | nil => exact absurd hpa (by simp)
      | cons x xs => rfl
    have htake : (l ++ [a]).take (l.length + 1) = l ++ [a] := by
      have hl : (l ++ [a]).length = l.length + 1 := by simp
      rw [← hl, List.take_length]
    have hlen2 : (l ++ [a]).length = l.length + 1 := by simp
    rw [dirLoop]
    rw [dif_neg (by rw [hemp]; simp), if_neg hne]
    by_cases hP : isPkg (pkg ++ (l ++ [a])) = true
    · rw [if_pos hP]
      apply iff_of_false
      · simp
      · intro hfalse
        have hany : ((List.range (l ++ [a]).length).any
            (fun j => isPkg (pkg ++ (l ++ [a]).take (j + 1)))) = true := by
          rw [List.any_eq_true]
          refine ⟨l.length, ?_, ?_⟩
          · rw [List.mem_range, hlen2]
            omega
          · rw [htake]
            exact hP
        rw [hfalse] at hany
        exact Bool.noConfusion hany
    · have hPf : isPkg (pkg ++ (l ++ [a])) = false := by
        rw [Bool.eq_false_iff]
        exact hP
      rw [if_neg hP]
      have hdl : (pkg ++ (l ++ [a])).dropLast = pkg ++ l := by
        rw [← List.append_assoc, List.dropLast_concat]
      rw [hdl, ih, hlen2, List.range_succ, List.any_append]
      have hcong : (List.range l.length).any
          (fun j => isPkg (pkg ++ (l ++ [a]).take (j + 1))) =
          (List.range l.length).any (fun j => isPkg (pkg ++ l.take (j + 1))) := by
        apply any_congr_mem
        intro j hj
        rw [List.mem_range] at hj
        rw [List.take_append_of_le_length (by omega)]
      rw [List.any_cons, List.any_nil, htake, hPf, Bool.or_false, Bool.or_false, hcong]

/-- C3: `parseSource` classification — a source starting with `//` or `:`
is parsed as a build-label input (with an optional file part); otherwise a
source containing `../` fails with InvalidPath; otherwise one beginning
with `/` fails with AbsolutePath; otherwise one containing `/` fails with
CrossPackageFile exactly when some parent directory of `packageName/src`
strictly between it and the package is itself a package, and is returned
as a file of the package otherwise; a slash-free source is the package's
file. -/
theorem parseSource_classification (isPkg : List String → Bool) (src packageName : String) :
    (LooksLikeABuildLabel src = true →
      (∃ label file, file ≠ "" ∧
          parseSource isPkg src packageName = .ok (.buildFileLabel label file)) ∨
      (∃ label, parseSource isPkg src packageName = .ok (.targetLabel label))) ∧
    (LooksLikeABuildLabel src = false → strContains src "../" = true →
      parseSource isPkg src packageName = .fail (.invalidPath src)) ∧
    (LooksLikeABuildLabel src = false → strContains src "../" = false →
      src.data.head? = some '/' →
      parseSource isPkg src packageName = .fail (.absolutePath src)) ∧
    (LooksLikeABuildLabel src = false → strContains src "../" = false →
      src.data.head? ≠ some '/' → strContains src "/" = true →
      (((List.range ((splitPath src).dropLast).length).any
          (fun j => isPkg (splitPath packageName ++ ((splitPath src).dropLast).take (j + 1)))
            = true →
        ∃ d, parseSource isPkg src packageName = .fail (.crossPackageFile src d)) ∧
       ((List.range ((splitPath src).dropLast).length).any
          (fun j => isPkg (splitPath packageName ++ ((splitPath src).dropLast).take (j + 1)))
            = false →
        parseSource isPkg src packageName = .ok (.fileLabel src packageName)))) ∧
    (LooksLikeABuildLabel src = false → strContains src "../" = false → src ≠ "" →
      src.data.head? ≠ some '/' → strContains src "/" = false →
      parseSource isPkg src packageName = .ok (.fileLabel src packageName)) := by
  refine ⟨?_, ?_, ?_, ?_, ?_⟩
  · intro h1
    unfold parseSource
    rw [if_pos h1]
    cases hp : ParseBuildFileLabel src packageName with
    | mk label file =>
      dsimp only
      by_cases hf : file = ""
      · rw [if_neg (by simp [hf])]
        exact Or.inr ⟨label, rfl⟩
      · rw [if_pos hf]
        exact Or.inl ⟨label, file, hf, rfl⟩
  · intro h1 h2
    unfold parseSource
    rw [if_neg (by simp [h1]), if_pos h2]
  · intro h1 h2 h3
    unfold parseSource
    rw [if_neg (by simp [h1]), if_neg (by simp [h2])]
    cases hd : src.data with
    | nil => rw [hd] at h3; exact absurd h3 (by simp)
    | cons c cs =>
      rw [hd] at h3
      have hc : c = '/' := by
        simpa using h3
      dsimp only
      rw [if_pos hc]
  · intro h1 h2 h3 h4
    have hne : src ≠ "" := strContains_slash_ne_empty h4
    have hsp : splitPath src ≠ [] := splitPath_ne_nil hne
    have hdla : (splitPath packageName ++ splitPath src).dropLast =
        splitPath packageName ++ (splitPath src).dropLast :=
      List.dropLast_append_of_ne_nil _ hsp
    have hbody : ∀ c cs, src.data = c :: cs →
        parseSource isPkg src packageName =
          (match dirLoop isPkg (splitPath packageName)
              (splitPath packageName ++ (splitPath src).dropLast) with
          | some dir => .fail (.crossPackageFile src dir)
          | none => .ok (.fileLabel src packageName)) := by
      intro c cs hd
      unfold parseSource
      rw [if_neg (by simp [h1]), if_neg (by simp [h2])]
      rw [hd] at h3 ⊢
      have hc : ¬ c = '/' := by
        intro hcc
        exact h3 (by rw [hcc]; rfl)
      dsimp only
      rw [if_neg hc, if_pos h4, hdla]
    cases hd : src.data with
    | nil =>
      exfalso
      apply hne
      cases src with
      | mk data => cases hd; rfl
    | cons c cs =>
      have hb := hbody c cs hd
      constructor
      · intro hany
        rw [hb]
        cases hdl : dirLoop isPkg (splitPath packageName)
            (splitPath packageName ++ (splitPath src).dropLast) with
        | none =>
          rw [(dirLoop_append_eq_none_iff isPkg (splitPath packageName)
            ((splitPath src).dropLast)).mp hdl] at hany
          exact Bool.noConfusion hany
        | some d => exact ⟨d, rfl⟩
      · intro hany
        rw [hb]
        cases hdl : dirLoop isPkg (splitPath packageName)
            (splitPath packageName ++ (splitPath src).dropLast) with
        | none => rfl
        | some d =>
          have := (dirLoop_append_eq_none_iff isPkg (splitPath packageName)
            ((splitPath src).dropLast)).mpr hany
          rw [hdl] at this
          exact Option.noConfusion this
  · intro h1 h2 hne h3 h4
    unfold parseSource
    rw [if_neg (by simp [h1]), if_neg (by simp [h2])]
    cases hd : src.data with
    | nil =>
      exfalso
      apply hne
      cases src with
      | mk data => cases hd; rfl
    | cons c cs =>
      rw [hd] at h3
      have hc : ¬ c = '/' := by
        intro hcc
        exact h3 (by rw [hcc]; rfl)
      dsimp only
      rw [if_neg hc, if_neg (by simp [h4])]

/-- Witness for C3: a slashed source whose parent directory is not a
package is the package's own file. -/
theorem parseSource_classification_witness :
    parseSource (fun _ => false) "sub/inner.go" "p" = .ok (.fileLabel "sub/inner.go" "p") :=
  ((parseSource_classification (fun _ => false) "sub/inner.go" "p").2.2.2.1
    (by decide) (by decide) (by decide) (by decide)).2 (by decide)

/-! ### C6: GetLabels -/

theorem lexLeChars_total : ∀ as bs : List Char, lexLeChars as bs = true ∨ lexLeChars bs as = true
  | [], _ => Or.inl rfl
  | _ :: _, [] => Or.inr rfl
  | a :: as, b :: bs => by
    unfold lexLeChars
    by_cases hab : a.toNat < b.toNat
    · left
      rw [if_pos hab]
    · by_cases hba : b.toNat < a.toNat
      · right
        rw [if_pos hba]
      · rw [if_neg hab, if_neg hba, if_neg hba, if_neg hab]
        exact lexLeChars_total as bs

theorem lexLeChars_trans : ∀ as bs cs : List Char, lexLeChars as bs = true →
    lexLeChars bs cs = true → lexLeChars as cs = true
  | [], _, _ => fun _ _ => rfl
  | _ :: _, [], _ => fun h _ => Bool.noConfusion h
  | _ :: _, _ :: _, [] => fun _ h => Bool.noConfusion h
  | a :: as, b :: bs, c :: cs => by
    intro h1 h2
    unfold lexLeChars at h1 h2 ⊢
    by_cases hab : a.toNat < b.toNat
    · by_cases hbc : b.toNat < c.toNat
      · rw [if_pos (by omega)]
      · by_cases hcb : c.toNat < b.toNat
        · rw [if_neg hbc, if_pos hcb] at h2
          exact Bool.noConfusion h2
        · rw [if_pos (by omega)]
    · by_cases hba : b.toNat < a.toNat
      · rw [if_neg hab, if_pos hba] at h1
        exact Bool.noConfusion h1
      · by_cases hbc : b.toNat < c.toNat
        · rw [if_pos (by omega)]
        · by_cases hcb : c.toNat < b.toNat
          · rw [if_neg hbc, if_pos hcb] at h2
            exact Bool.noConfusion h2
          · rw [if_neg hab, if_neg hba] at h1
            rw [if_neg hbc, if_neg hcb] at h2
            rw [if_neg (by omega), if_neg (by omega)]
            exact lexLeChars_trans as bs cs h1 h2

instance : IsTotal String (fun a b => lexLe a b = true) :=
  ⟨fun a b => lexLeChars_total a.data b.data⟩

instance : IsTrans String (fun a b => lexLe a b = true) :=
  ⟨fun a b c => lexLeChars_trans a.data b.data c.data⟩

theorem mem_dedupKeep {a : String} : ∀ {l : List String}, a ∈ dedupKeep l ↔ a ∈ l := by
  intro l
  induction l with
  | nil => simp [dedupKeep]
  | cons x xs ih =>
    unfold dedupKeep
    by_cases hx : x ∈ xs
    · rw [if_pos hx, ih, List.mem_cons]
      constructor
      · exact Or.inr
      · rintro (rfl | h)
        · exact hx
        · exact h
    · rw [if_neg hx, List.mem_cons, List.mem_cons, ih]

theorem nodup_dedupKeep : ∀ l : List String, (dedupKeep l).Nodup := by
  intro l
  induction l with
  | nil => exact List.nodup_nil
  | cons x xs ih =>
    unfold dedupKeep
    by_cases hx : x ∈ xs
    · rw [if_pos hx]
      exact ih
    · rw [if_neg hx, List.nodup_cons]
      exact ⟨fun hc => hx (mem_dedupKeep.mp hc), ih⟩

mutual

theorem mem_collectLabels (pre s : String) : ∀ t : TargetTree,
    (s ∈ collectLabels pre t ↔ ∃ l ∈ treeLabels t,
      strHasPrefix l pre = true ∧ s = strTrimSpace (strTrimPrefix l pre))
  | .node labels deps => by
    rw [collectLabels, treeLabels]
    rw [List.mem_append]
    rw [mem_collectLabelsList pre s deps]
    rw [List.mem_filterMap]
    constructor
    · rintro (⟨l, hl, hf⟩ | ⟨l, hl, hp, hs⟩)
      · by_cases hpre : strHasPrefix l pre = true
        · rw [if_pos hpre] at hf
          exact ⟨l, List.mem_append_left _ hl, hpre, (Option.some_inj.mp hf).symm⟩
        · rw [if_neg hpre] at hf
          exact Option.noConfusion hf
      · exact ⟨l, List.mem_append_right _ hl, hp, hs⟩
    · rintro ⟨l, hl, hp, hs⟩
      rcases List.mem_append.mp hl with hl2 | hl2
      · exact Or.inl ⟨l, hl2, by rw [if_pos hp, hs]⟩
      · exact Or.inr ⟨l, hl2, hp, hs⟩

theorem mem_collectLabelsList (pre s : String) : ∀ ts : List TargetTree,
    (s ∈ collectLabelsList pre ts ↔ ∃ l ∈ treeLabelsList ts,
      strHasPrefix l pre = true ∧ s = strTrimSpace (strTrimPrefix l pre))
  | [] => by simp [collectLabelsList, treeLabelsList]
  | t :: ts => by
    rw [collectLabelsList, treeLabelsList, List.mem_append]
    rw [mem_collectLabels pre s t, mem_collectLabelsList pre s ts]
    constructor
    · rintro (⟨l, hl, hp, hs⟩ | ⟨l, hl, hp, hs⟩)
      · exact ⟨l, List.mem_append_left _ hl, hp, hs⟩
      · exact ⟨l, List.mem_append_right _ hl, hp, hs⟩
    · rintro ⟨l, hl, hp, hs⟩
      rcases List.mem_append.mp hl with hl2 | hl2
      · exact Or.inl ⟨l, hl2, hp, hs⟩
      · exact Or.inr ⟨l, hl2, hp, hs⟩

end

/-- C6 (amended): for a target in state Building, `GetLabels` returns a
sorted, duplicate-free sequence whose members are exactly the labels of the
target and its transitive dependencies that carry the given prefix, with
the prefix stripped and surrounding whitespace trimmed; calling it when the
target is missing or not in state Building is an error. -/
theorem getLabels_sorted_dedup (pkg : Package) (name pre : String) :
    (∀ t, pkg.findTarget name = some t → t.state = .building →
      ∃ res, GetLabels pkg name pre = .ok res ∧
        List.Sorted (fun a b => lexLe a b = true) res ∧ res.Nodup ∧
        (∀ s, s ∈ res ↔ ∃ l ∈ treeLabels (.node t.labels t.resolvedDeps),
          strHasPrefix l pre = true ∧ s = strTrimSpace (strTrimPrefix l pre))) ∧
    (pkg.findTarget name = none →
      GetLabels pkg name pre = .error (.post (.unknownTarget name pkg.name))) ∧
    (∀ t, pkg.findTarget name = some t → TargetState.rank .built ≤ t.state.rank →
      GetLabels pkg name pre = .error (.post (.immutableBuiltTarget t.label))) ∧
    (∀ t, pkg.findTarget name = some t → t.state.rank < TargetState.rank .built →
      t.state ≠ .building →
      GetLabels pkg name pre = .error (.calledOutsideBuilding t.label)) := by
  refine ⟨?_, ?_, ?_, ?_⟩
  · intro t ht hstate
    have hg : getTargetPost pkg name = .ok t := by
      unfold getTargetPost
      rw [ht]
      dsimp only
      rw [if_neg (by rw [hstate]; decide)]
    refine ⟨sortStrings (dedupKeep (collectLabels pre (.node t.labels t.resolvedDeps))),
      ?_, ?_, ?_, ?_⟩
    · unfold GetLabels
      rw [hg]
      dsimp only
      rw [if_neg (by rw [hstate]; simp)]
    · exact List.sorted_insertionSort _ _
    · exact (List.perm_insertionSort _ _).symm.nodup
        (nodup_dedupKeep (collectLabels pre (.node t.labels t.resolvedDeps)))
    · intro s
      rw [sortStrings, (List.perm_insertionSort _ _).mem_iff, mem_dedupKeep,
        mem_collectLabels pre s (.node t.labels t.resolvedDeps)]
  · intro h
    unfold GetLabels getTargetPost
    rw [h]
  · intro t ht hrank
    have hg : getTargetPost pkg name = .error (.immutableBuiltTarget t.label) := by
      unfold getTargetPost
      rw [ht]
      dsimp only
      rw [if_pos hrank]
    unfold GetLabels
    rw [hg]
  · intro t ht hrank hstate
    have hg : getTargetPost pkg name = .ok t := by
      unfold getTargetPost
      rw [ht]
      dsimp only
      rw [if_neg (by omega)]
    unfold GetLabels
    rw [hg]
    dsimp only
    rw [if_pos hstate]

/-- Witness for C6: `GetLabels` on a missing target reports UnknownTarget. -/
theorem getLabels_sorted_dedup_witness :
    GetLabels pkgLabelsEx "nope" "p:" = .error (.post (.unknownTarget "nope" "x")) :=
  (getLabels_sorted_dedup pkgLabelsEx "nope" "p:").2.1 rfl

/-- C6 counterexample: a label `p: a` with prefix `p:` yields the trimmed
suffix `a`, not the plainly stripped suffix ` a` the claim predicts. -/
theorem getLabels_trim_counterexample :
    GetLabels pkgLabelsEx "lib" "p:" = .ok ["a"] ∧
    sortStrings (dedupKeep (collectLabelsPlain "p:"
      (.node labelsTargetEx.labels labelsTargetEx.resolvedDeps))) = [" a"] ∧
    (["a"] : List String) ≠ [" a"] := by
  exact ⟨rfl, rfl, by decide⟩

/-! ### C7: Glob and package boundaries -/

theorem inSubPackage_cons_cons (bfns : List String) (ts : List FSTree) (d r1 : String)
    (rs : List String) :
    inSubPackage bfns ts (d :: r1 :: rs) =
      ts.any (fun t => match t with
        | .dir n cs => n == d && (treeIsPackage bfns cs || inSubPackage bfns cs (r1 :: rs))
        | .file _ => false) := by
  rw [inSubPackage]
  exact fun h => List.noConfusion h

theorem uniqList_cons {t : FSTree} {ts : List FSTree} (h : uniqList (t :: ts) = true) :
    ((ts.map FSTree.nodeName).any (fun n => n = t.nodeName)) = false ∧
    uniqNode t = true ∧ uniqList ts = true := by
  rw [uniqList] at h
  simp only [Bool.and_eq_true, Bool.not_eq_true'] at h
  exact ⟨h.1.1, h.1.2, h.2⟩

mutual

theorem walkNode_spec (bfns : List String) (m : List String → Bool) :
    ∀ (t : FSTree) (pfx r : List String), r ∈ walkNode bfns m pfx t →
      uniqNode t = true →
      (∃ n, t = FSTree.file n ∧ r = pfx ++ [n]) ∨
      (∃ n cs s, t = FSTree.dir n cs ∧ treeIsPackage bfns cs = false ∧ s ≠ [] ∧
        r = pfx ++ n :: s ∧ inSubPackage bfns cs s = false ∧
        (∀ d rest, s = d :: rest → rest = [] ∨ d ∈ cs.map FSTree.nodeName))
  | .file n, pfx, r => by
    intro hr _
    rw [walkNode] at hr
    by_cases hm : m (pfx ++ [n]) = true
    · rw [if_pos hm] at hr
      exact Or.inl ⟨n, rfl, (List.mem_singleton.mp hr)⟩
    · rw [if_neg hm] at hr
      exact absurd hr (List.not_mem_nil r)
  | .dir n cs, pfx, r => by
    intro hr hu
    rw [walkNode] at hr
    by_cases hp : treeIsPackage bfns cs = true
    · rw [if_pos hp] at hr
      exact absurd hr (List.not_mem_nil r)
    · rw [if_neg hp] at hr
      have hu2 : uniqList cs = true := hu
      obtain ⟨s, hs, hrs, hsub, hhead⟩ := walkList_spec bfns m cs (pfx ++ [n]) r hr hu2
      right
      refine ⟨n, cs, s, rfl, by rw [Bool.eq_false_iff]; exact hp, hs, ?_, hsub, hhead⟩
      rw [hrs, List.append_assoc]
      rfl

theorem walkList_spec (bfns : List String) (m : List String → Bool) :
    ∀ (ts : List FSTree) (pfx r : List String), r ∈ walkList bfns m pfx ts →
      uniqList ts = true →
      ∃ s, s ≠ [] ∧ r = pfx ++ s ∧ inSubPackage bfns ts s = false ∧
        (∀ d rest, s = d :: rest → rest = [] ∨ d ∈ ts.map FSTree.nodeName)
  | [], pfx, r => by
    intro hr _
    exact absurd hr (List.not_mem_nil r)
  | t :: ts, pfx, r => by
    intro hr hu
    obtain ⟨hu1, hu2, hu3⟩ := uniqList_cons hu
    have hnames : ∀ u ∈ ts, FSTree.nodeName u ≠ t.nodeName := by
      intro u humem hc
      have : (ts.map FSTree.nodeName).any (fun n => n = t.nodeName) = true := by
        rw [List.any_eq_true]
        exact ⟨u.nodeName, List.mem_map_of_mem _ humem, by simp [hc]⟩
      rw [hu1] at this
      exact Bool.noConfusion this
    rw [walkList, List.mem_append] at hr
    rcases hr with hr | hr
    · rcases walkNode_spec bfns m t pfx r hr hu2 with
        ⟨n, hteq, hreq⟩ | ⟨n, cs, s, hteq, hpk, hs, hreq, hsub, hhead⟩
      · refine ⟨[n], by simp, hreq, by rw [inSubPackage], fun d rest hdr => ?_⟩
        cases hdr
        exact Or.inl rfl
      · refine ⟨n :: s, by simp, hreq, ?_, fun d rest hdr => ?_⟩
        · cases s with
          | nil => exact absurd rfl hs
          | cons s1 s2 =>
            rw [inSubPackage_cons_cons]
            rw [List.any_eq_false]
            intro u humem
            rcases List.mem_cons.mp humem with rfl | humem2
            · rw [hteq]
              dsimp only
              rw [hpk, hsub]
              simp
            · cases u with
              | file _ => simp
              | dir n2 cs2 =>
                have hne : n2 ≠ n := by
                  have := hnames (.dir n2 cs2) humem2
                  rw [hteq] at this
                  exact this
                simp [hne]
        · cases hdr
          right
          rw [hteq, List.map_cons]
          exact List.mem_cons_self _ _
    · obtain ⟨s, hs, hrs, hsub, hhead⟩ := walkList_spec bfns m ts pfx r hr hu3
      refine ⟨s, hs, hrs, ?_, fun d rest hdr => ?_⟩
      · cases s with
        | nil => exact absurd rfl hs
        | cons s1 s2 =>
          cases s2 with
          | nil => rw [inSubPackage]
          | cons s3 s4 =>
            rw [inSubPackage_cons_cons] at hsub ⊢
            rw [List.any_cons, hsub, Bool.or_false]
            rcases hhead s1 (s3 :: s4) rfl with hcon | hmem
            · exact absurd hcon (by simp)
            · cases t with
              | file _ => rfl
              | dir n2 cs2 =>
                have hne : n2 ≠ s1 := by
                  intro hc
                  rw [List.mem_map] at hmem
                  obtain ⟨u, humem, huname⟩ := hmem
                  exact hnames u humem (by rw [huname, hc]; rfl)
                dsimp only
                simp [hne]
      · rcases hhead d rest hdr with h | h
        · exact Or.inl h
        · right
          rw [List.map_cons]
          exact List.mem_cons_of_mem _ h

end

/-- C7 (amended): for include patterns that each contain `**` (the pruned
walk), no file returned by `Glob` with `includeHidden = false` lies inside
a descendant directory of the package that is itself a package, whatever
the compiled regex matches and whatever the excludes are. -/
theorem glob_no_subpackage_files (bfns : List String) (repo : List FSTree)
    (compile : String → List String → Bool) (pkg : List String)
    (includes excludes : List String) (children : List FSTree)
    (hstar : ∀ pat ∈ includes, strContains pat "**" = true)
    (hchild : dirAt repo pkg = some children)
    (huniq : uniqList children = true) :
    ∀ r ∈ Glob bfns repo compile pkg includes excludes false,
      inSubPackage bfns children r = false := by
  intro r hr
  unfold Glob at hr
  rw [List.mem_flatMap] at hr
  obtain ⟨pattern, hpat, hrf⟩ := hr
  rw [List.mem_filterMap] at hrf
  obtain ⟨filename, hfn, hval⟩ := hrf
  rw [glob, if_pos (hstar pattern hpat), hchild] at hfn
  obtain ⟨s, hs, rfl, hsub, -⟩ :=
    walkList_spec bfns (compile pattern) children pkg filename hfn huniq
  revert hval
  dsimp only
  split
  · intro hval
    exact Option.noConfusion hval
  · split
    · intro hval
      exact Option.noConfusion hval
    · split
      · intro hval
        have hr2 : (pkg ++ s).drop pkg.length = r := Option.some_inj.mp hval
        rw [List.drop_left] at hr2
        rw [← hr2]
        exact hsub
      · next hpre =>
        exact absurd (List.isPrefixOf_iff_prefix.mpr (List.prefix_append pkg s)) hpre

/-- Witness for C7: the walk with a `**` pattern returns `main.go`, which
lies in no sub-package. -/
theorem glob_no_subpackage_files_witness :
    inSubPackage ["BUILD"] pChildrenEx ["main.go"] = false :=
  glob_no_subpackage_files ["BUILD"] repoEx (fun _ _ => true) ["p"] ["**/*.go"] []
    pChildrenEx (by decide) rfl (by decide) ["main.go"] (by decide)

/-- C7 counterexample: an include pattern without `**` goes through
`filepath.Glob`, which does not prune package boundaries, so `Glob` returns
`sub/inner.go` although `p/sub` is a package. -/
theorem glob_crosses_package_counterexample :
    Glob ["BUILD"] repoEx (fun _ _ => false) ["p"] ["sub/inner.go"] [] false =
      [["sub", "inner.go"]] ∧
    inSubPackage ["BUILD"] pChildrenEx ["sub", "inner.go"] = true := by
  exact ⟨rfl, rfl⟩

end Please

